import Mathlib

/-!
Verification of the realtime-switch gateway core against its specification.

The definitions below are shallow embeddings of the TypeScript sources:
payloads are modelled as JSON-shaped trees (`JVal`), stateful classes as
explicit state records with pure transition functions, and fire-and-forget
persistence writes as lists of scheduled appends.
-/

namespace RS

/-- Vendor/style tag: the `Providers` enum of the source
(`core/src/eventmanager/Providers`), which has exactly the two members
`OPENAI` and `GEMINI`. -/
inductive Prov where
  | openai
  | gemini
deriving DecidableEq, Repr

/-- The alternate provider, as computed by `PingSwitch.getOtherProvider`. -/
def Prov.other : Prov → Prov
  | .openai => .gemini
  | .gemini => .openai

/-- JSON-shaped payload values: the opaque event payloads the gateway reads
and rewrites.  Mirrors the value space of the JS objects the source
manipulates (strings, numbers, booleans, null, arrays, maps). -/
inductive JVal where
  | str (s : String)
  | num (n : Int)
  | flt (m : Int) (e : Nat)
  | bool (b : Bool)
  | null
  | arr (elems : List JVal)
  | obj (fields : List (String × JVal))

/-- First-match lookup in an object's field list (our object literals never
carry duplicate keys, matching JS object semantics). -/
def jLook : List (String × JVal) → String → Option JVal
  | [], _ => none
  | (k, v) :: rest, key => if k = key then some v else jLook rest key

/-- JS property access `v.k` / `v?.k`: defined only on objects, `undefined`
(modelled as `none`) otherwise. -/
def JVal.get? : JVal → String → Option JVal
  | .obj fs, k => jLook fs k
  | _, _ => none

/-- JS truthiness of a defined value.  `flt m e` stands for the decimal
number `m·10⁻ᵉ` (used only for the one non-integer literal a transformer
emits). -/
def jTruthyV : JVal → Bool
  | .str s => !s.isEmpty
  | .num n => n != 0
  | .flt m _ => m != 0
  | .bool b => b
  | .null => false
  | .arr _ => true
  | .obj _ => true

/-- JS truthiness of a possibly-`undefined` value. -/
def jTruthy : Option JVal → Bool
  | none => false
  | some v => jTruthyV v

/-- Optional-chained access `v?.k`. -/
def jget (v : Option JVal) (k : String) : Option JVal := v.bind (·.get? k)

/-- Property read whose result is stored into a fresh object literal: JS
would store `undefined`; reading that field later again yields a falsy,
non-string value, which `JVal.null` models faithfully for every check the
source performs. -/
def jGetD (v : Option JVal) (k : String) : JVal := (jget v k).getD .null

/-- `a || b` for two possibly-undefined values, with `null` standing for a
falsy final result. -/
def jsOr (a b : Option JVal) : JVal :=
  match a with
  | some v => if jTruthyV v then v else (b.getD .null)
  | none => b.getD .null

/-! ## Switch controller (`PingSwitch`, src/unnamed/part_016) -/

/-- State of `PingSwitch`: configured threshold and consecutive-failure
count, the current provider, and the per-provider latency sequences held in
`providerLatencies` (initialised to `[]` for both providers). -/
structure PingSwitch where
  threshold : Int
  failN : Nat
  currentProvider : Prov
  oaiLat : List Int
  gemLat : List Int
deriving DecidableEq, Repr

/-- `providerLatencies.get(p)`. -/
def PingSwitch.lats (s : PingSwitch) : Prov → List Int
  | .openai => s.oaiLat
  | .gemini => s.gemLat

/-- `providerLatencies.set(p, l)`. -/
def PingSwitch.setLats (s : PingSwitch) : Prov → List Int → PingSwitch
  | .openai, l => { s with oaiLat := l }
  | .gemini, l => { s with gemLat := l }

/-- `PingSwitch.evaluateSwitching` followed by `performSwitch` when it
fires: examines the last `CONSECUTIVE_FAILURES` latencies of the current
provider; if all are strictly above the threshold, clears the leaving
provider's sequence, moves `currentProvider` to the other provider and
reports the switch target. -/
def evaluateSwitching (s : PingSwitch) : PingSwitch × Option Prov :=
  let cur := s.lats s.currentProvider
  if cur.length < s.failN then (s, none)
  else
    let lastN := cur.drop (cur.length - s.failN)
    if lastN.all (fun l => s.threshold < l) then
      let target := s.currentProvider.other
      let s1 := s.setLats s.currentProvider []
      ({ s1 with currentProvider := target }, some target)
    else (s, none)

/-- `PingSwitch.addStats`: appends the measurement to the sample's
provider sequence and evaluates switching only when the sample is for the
current provider.  Returns the new state and the emitted switch target, if
any. -/
def addStats (s : PingSwitch) (provider : Prov) (latency : Int) : PingSwitch × Option Prov :=
  let s1 := s.setLats provider (s.lats provider ++ [latency])
  if provider = s.currentProvider then evaluateSwitching s1 else (s1, none)

/-- Runs a sequence of latency samples through `addStats`, collecting every
emitted switch target in order. -/
def runStats : PingSwitch → List (Prov × Int) → PingSwitch × List Prov
  | s, [] => (s, [])
  | s, sm :: rest =>
    let r := addStats s sm.1 sm.2
    let r2 := runStats r.1 rest
    (r2.1, r.2.toList ++ r2.2)

/-- The exact condition under which one `addStats` call emits a switch:
the sample is for the current provider, the sequence (after the append) has
at least `N` entries, and the last `N` recorded values are all strictly
above the threshold. -/
def switchFires (s : PingSwitch) (p : Prov) (l : Int) : Prop :=
  p = s.currentProvider ∧
  s.failN ≤ (s.lats p).length + 1 ∧
  ∀ x ∈ (s.lats p ++ [l]).drop ((s.lats p).length + 1 - s.failN), s.threshold < x

instance (s : PingSwitch) (p : Prov) (l : Int) : Decidable (switchFires s p l) := by
  unfold switchFires; infer_instance

@[simp] lemma lats_setLats_same (s : PingSwitch) (q : Prov) (L : List Int) :
    (s.setLats q L).lats q = L := by
  cases q <;> rfl

@[simp] lemma currentProvider_setLats (s : PingSwitch) (q : Prov) (L : List Int) :
    (s.setLats q L).currentProvider = s.currentProvider := by
  cases q <;> rfl

@[simp] lemma threshold_setLats (s : PingSwitch) (q : Prov) (L : List Int) :
    (s.setLats q L).threshold = s.threshold := by
  cases q <;> rfl

@[simp] lemma failN_setLats (s : PingSwitch) (q : Prov) (L : List Int) :
    (s.setLats q L).failN = s.failN := by
  cases q <;> rfl

lemma lats_setLats_other (s : PingSwitch) {q q' : Prov} (L : List Int) (h : q ≠ q') :
    (s.setLats q L).lats q' = s.lats q' := by
  cases q <;> cases q' <;> first | rfl | exact absurd rfl h

lemma addStats_miss (s : PingSwitch) {p : Prov} (l : Int) (h : p ≠ s.currentProvider) :
    (addStats s p l).2 = none ∧ (addStats s p l).1.currentProvider = s.currentProvider := by
  simp [addStats, h]

lemma evaluateSwitching_spec (s : PingSwitch) :
    ((evaluateSwitching s).2.isSome ↔
      (s.failN ≤ (s.lats s.currentProvider).length ∧
        ∀ x ∈ (s.lats s.currentProvider).drop
            ((s.lats s.currentProvider).length - s.failN), s.threshold < x))
    ∧ (∀ t, (evaluateSwitching s).2 = some t →
        t = s.currentProvider.other
        ∧ (evaluateSwitching s).1
            = { s.setLats s.currentProvider [] with
                currentProvider := s.currentProvider.other }) := by
  unfold evaluateSwitching
  by_cases h1 : (s.lats s.currentProvider).length < s.failN
  · rw [if_pos h1]
    refine ⟨?_, ?_⟩
    · simp only [Option.isSome_none, Bool.false_eq_true, false_iff]
      rintro ⟨h2, -⟩
      omega
    · intro t ht
      simp at ht
  · rw [if_neg h1]
    by_cases h2 : ((s.lats s.currentProvider).drop
        ((s.lats s.currentProvider).length - s.failN)).all
        (fun x => decide (s.threshold < x)) = true
    · rw [if_pos h2]
      have h2' : ∀ x ∈ (s.lats s.currentProvider).drop
          ((s.lats s.currentProvider).length - s.failN), s.threshold < x := by
        simpa [List.all_eq_true] using h2
      refine ⟨?_, ?_⟩
      · simpa using ⟨by omega, h2'⟩
      · intro t ht
        simp only [Option.some.injEq] at ht
        exact ⟨ht.symm, rfl⟩
    · rw [if_neg h2]
      refine ⟨?_, by intro t ht; simp at ht⟩
      simp only [Option.isSome_none, Bool.false_eq_true, false_iff]
      rintro ⟨-, hall⟩
      exact h2 (by simpa [List.all_eq_true] using hall)

/-- Claim C1 (amended): a switch request is emitted by `addStats` exactly
when the sample's provider equals `currentProvider`, the recorded sequence
for it (including the new sample) has at least `N` entries, and the last
`N` recorded values are all strictly greater than the threshold (equality
never triggers).  When it fires, the request targets the other provider,
the leaving provider's sequence is cleared, `currentProvider` is updated to
the target, and the incoming provider's previously recorded sequence is
retained.  No further switch is emitted until at least one more sample for
the new current provider arrives (samples for other providers never fire);
but because the incoming provider's history is retained, fewer than `N`
new samples can suffice for the next switch. -/
theorem c1_switch_behaviour :
    (∀ s p l, ((addStats s p l).2.isSome ↔ switchFires s p l))
    ∧ (∀ s p l t, (addStats s p l).2 = some t →
        t = s.currentProvider.other
        ∧ (addStats s p l).1.currentProvider = s.currentProvider.other
        ∧ (addStats s p l).1.lats s.currentProvider = []
        ∧ (addStats s p l).1.lats s.currentProvider.other
            = s.lats s.currentProvider.other)
    ∧ (∀ s samples, (∀ sm ∈ samples, sm.1 ≠ s.currentProvider) →
        (runStats s samples).2 = []) := by
  have hother : ∀ p : Prov, p.other ≠ p := fun p => by cases p <;> decide
  have hstep : ∀ s p l, p = s.currentProvider →
      addStats s p l = evaluateSwitching (s.setLats p (s.lats p ++ [l])) := by
    intro s p l hp
    simp [addStats, hp]
  refine ⟨?_, ?_, ?_⟩
  · intro s p l
    by_cases hp : p = s.currentProvider
    · rw [hstep s p l hp]
      set s1 := s.setLats p (s.lats p ++ [l]) with hs1
      have hcur : s1.currentProvider = s.currentProvider := currentProvider_setLats ..
      have hlat : s1.lats s1.currentProvider = s.lats p ++ [l] := by
        rw [hcur, ← hp]; exact lats_setLats_same ..
      have h := (evaluateSwitching_spec s1).1
      rw [h, hlat]
      unfold switchFires
      have hN : s1.failN = s.failN := failN_setLats ..
      have hT : s1.threshold = s.threshold := threshold_setLats ..
      rw [hN, hT]
      simp only [List.length_append, List.length_cons, List.length_nil]
      constructor
      · rintro ⟨h1, h2⟩; exact ⟨hp, h1, h2⟩
      · rintro ⟨-, h1, h2⟩; exact ⟨h1, h2⟩
    · simp [addStats, hp, switchFires]
  · intro s p l t hfire
    have hp : p = s.currentProvider := by
      by_contra hne
      simp [addStats, hne] at hfire
    rw [hstep s p l hp] at hfire ⊢
    set s1 := s.setLats p (s.lats p ++ [l]) with hs1
    have hcur : s1.currentProvider = s.currentProvider := currentProvider_setLats ..
    have h := (evaluateSwitching_spec s1).2 t hfire
    have hto : t = s.currentProvider.other := by rw [h.1, hcur]
    refine ⟨hto, ?_, ?_, ?_⟩
    · rw [h.2]; simp [hcur]
    · rw [h.2]
      show ({ s1.setLats s1.currentProvider [] with
          currentProvider := s1.currentProvider.other }).lats s.currentProvider = []
      have : ({ s1.setLats s1.currentProvider [] with
          currentProvider := s1.currentProvider.other }).lats s.currentProvider
          = (s1.setLats s1.currentProvider []).lats s.currentProvider := by
        cases hc : s.currentProvider <;> simp [PingSwitch.lats]
      rw [this, ← hcur]
      exact lats_setLats_same ..
    · rw [h.2]
      have h1 : ({ s1.setLats s1.currentProvider [] with
          currentProvider := s1.currentProvider.other }).lats s.currentProvider.other
          = (s1.setLats s1.currentProvider []).lats s.currentProvider.other := by
        cases hc : s.currentProvider.other <;> simp [PingSwitch.lats]
      have hq : s1.currentProvider ≠ s.currentProvider.other := by
        rw [hcur]; exact (hother _).symm
      rw [h1, lats_setLats_other _ _ hq, hs1, hp]
      exact lats_setLats_other _ _ (hother _).symm
  · intro s samples
    induction samples generalizing s with
    | nil => intro _; rfl
    | cons sm rest ih =>
      intro hall
      have hne : sm.1 ≠ s.currentProvider := hall sm (List.mem_cons_self _ _)
      have hm := addStats_miss s sm.2 hne
      simp only [runStats, hm.1, Option.toList_none, List.nil_append]
      exact ih _ (fun x hx => hm.2 ▸ hall x (List.mem_cons_of_mem _ hx))

/-- Witness for `c1_switch_behaviour` at concrete inputs: with threshold
500 and `N = 3`, a third consecutive 600 ms sample for the current provider
fires a switch to the other provider, which retains its prior history. -/
theorem c1_switch_behaviour_witness :
    ((addStats ⟨500, 3, Prov.openai, [600, 600], [999]⟩ Prov.openai 601).2
        = some Prov.gemini
      → Prov.gemini = Prov.openai.other
        ∧ (addStats ⟨500, 3, Prov.openai, [600, 600], [999]⟩ Prov.openai 601).1.lats
            Prov.gemini = [999])
    ∧ (runStats ⟨500, 3, Prov.openai, [], []⟩ [(Prov.gemini, 600)]).2 = [] := by
  constructor
  · intro h
    have r := c1_switch_behaviour.2.1 ⟨500, 3, Prov.openai, [600, 600], [999]⟩
      Prov.openai 601 Prov.gemini h
    exact ⟨r.1, r.2.2.2⟩
  · exact c1_switch_behaviour.2.2 ⟨500, 3, Prov.openai, [], []⟩ [(Prov.gemini, 600)]
      (by decide)

/-- Counterexample to claim C1 as stated: after a switch (here to
`GEMINI`), the incoming provider's latency history is NOT cleared, so a
single further sample for the new current provider — not `N = 3` of them —
fires the next switch. -/
theorem c1_quiescence_counterexample :
    (runStats ⟨500, 3, Prov.openai, [], []⟩
        [(Prov.gemini, 600), (Prov.gemini, 600), (Prov.gemini, 600),
         (Prov.openai, 600), (Prov.openai, 600), (Prov.openai, 600)]).2
      = [Prov.gemini]
    ∧ (runStats ⟨500, 3, Prov.openai, [], []⟩
        [(Prov.gemini, 600), (Prov.gemini, 600), (Prov.gemini, 600),
         (Prov.openai, 600), (Prov.openai, 600), (Prov.openai, 600),
         (Prov.gemini, 600)]).2
      = [Prov.gemini, Prov.openai] := by
  constructor <;> rfl

/-! ## Session config store (`SessionManager`, src/orchestrator/src/SessionManager.ts) -/

/-- `ProvidersEvent`: a source/style tag plus an opaque payload. -/
structure PEvent where
  src : Prov
  payload : JVal

/-- Field list of an object value; the source only ever spreads object (or
defaulted `{}`) operands. -/
def jFields : JVal → List (String × JVal)
  | .obj fs => fs
  | _ => []

/-- JS object spread `{...a, ...b}` on object operands: keys of `a` in
order (values overridden by same-named keys of `b`), then keys of `b` not
in `a`. -/
def spreadFields (a b : List (String × JVal)) : List (String × JVal) :=
  a.map (fun kv => match jLook b kv.1 with | some w => (kv.1, w) | none => kv)
    ++ b.filter (fun kv => (jLook a kv.1).isNone)

/-- `x || {}`. -/
def jOrEmptyObj (v : Option JVal) : JVal :=
  match v with
  | some x => if jTruthyV x then x else .obj []
  | none => .obj []

/-- `SessionManager.mergeSessionConfiguration`: the first update is stored
as-is; later ones shallow-merge `payload.session` and overwrite the whole
payload with `{...event.payload, session: merged}` (keeping the stored
`src`). -/
def mergeSessionConfiguration (stored : Option PEvent) (e : PEvent) : PEvent :=
  match stored with
  | none => e
  | some cfg =>
    let existingSession := jOrEmptyObj (cfg.payload.get? "session")
    let newSession := jOrEmptyObj (e.payload.get? "session")
    let merged := JVal.obj (spreadFields (jFields existingSession) (jFields newSession))
    { cfg with payload := .obj (spreadFields (jFields e.payload) [("session", merged)]) }

/-- The stored configuration after a sequence of `sessionUpdate` events. -/
def runUpdates (stored : Option PEvent) (us : List PEvent) : Option PEvent :=
  us.foldl (fun st u => some (mergeSessionConfiguration st u)) stored

/-- Modelled from the spec (§8 P1): `fold(a,b) = a with b applied by
top-level key` — each field named in `b` replaces the same-named field of
`a` entirely, fields absent from `b` are preserved, new fields of `b` are
appended. -/
def specApplyByKey (a b : List (String × JVal)) : List (String × JVal) :=
  a.map (fun kv => (kv.1, (jLook b kv.1).getD kv.2))
    ++ b.filter (fun kv => !(a.map Prod.fst).contains kv.1)

/-- Modelled from the spec (§8 P1): the left fold of top-level session
maps. -/
def specFold (ms : List (List (String × JVal))) : List (String × JVal) :=
  ms.foldl specApplyByKey []

/-- The top-level session-field map `Mᵢ` of an update. -/
def sessionFieldsOf (u : PEvent) : List (String × JVal) :=
  jFields ((u.payload.get? "session").getD (.obj []))

lemma spreadFields_eq_specApplyByKey (a b : List (String × JVal)) :
    spreadFields a b = specApplyByKey a b := by
  unfold spreadFields specApplyByKey
  congr 1
  · refine List.map_congr_left ?_
    intro kv _
    cases h : jLook b kv.1 <;> simp [h]
  · refine List.filter_congr ?_
    intro kv _
    induction a with
    | nil => simp [jLook]
    | cons hd tl ih =>
      by_cases hk : kv.1 = hd.1
      · simp [jLook, hk]
      · have hb : (kv.1 == hd.1) = false := beq_eq_false_iff_ne.mpr hk
        simpa [jLook, hk, Ne.symm hk, hb] using ih

lemma jLook_append (xs ys : List (String × JVal)) (k : String) :
    jLook (xs ++ ys) k = (jLook xs k).orElse (fun _ => jLook ys k) := by
  induction xs with
  | nil => simp [jLook]
  | cons hd tl ih =>
    by_cases hk : hd.1 = k <;> simp [jLook, hk, ih]

lemma jLook_map_override (a b : List (String × JVal)) (k : String) :
    jLook (a.map (fun kv => match jLook b kv.1 with
        | some w => (kv.1, w) | none => kv)) k
      = match jLook a k with
        | some v => some ((jLook b k).getD v)
        | none => none := by
  induction a with
  | nil => simp [jLook]
  | cons hd tl ih =>
    by_cases hk : hd.1 = k
    · subst hk
      cases hb : jLook b hd.1 <;> simp [jLook, hb]
    · cases hf : jLook b hd.1 <;> simp [jLook, hk, hf, ih]

lemma jLook_filter_key (p : String → Bool) (b : List (String × JVal)) (k : String) :
    jLook (b.filter (fun kv => p kv.1)) k = if p k then jLook b k else none := by
  induction b with
  | nil => simp [jLook]
  | cons hd tl ih =>
    by_cases hk : hd.1 = k
    · subst hk
      cases hp : p hd.1 <;> simp [jLook, hp, ih]
    · cases hp : p hd.1 <;> simp [jLook, hk, hp, ih]

/-- Lookup in a spread `{...a, ...b}`: `b` wins, `a` is the fallback. -/
lemma jLook_spreadFields (a b : List (String × JVal)) (k : String) :
    jLook (spreadFields a b) k = (jLook b k).orElse (fun _ => jLook a k) := by
  unfold spreadFields
  rw [jLook_append, jLook_map_override, jLook_filter_key (fun s => (jLook a s).isNone)]
  cases ha : jLook a k <;> cases hb : jLook b k <;> simp [ha, hb]

lemma jLook_spread_single_same (fs : List (String × JVal)) (k : String) (v : JVal) :
    jLook (spreadFields fs [(k, v)]) k = some v := by
  rw [jLook_spreadFields]
  simp [jLook]

lemma jLook_spread_single_other (fs : List (String × JVal)) (k k' : String) (v : JVal)
    (h : k' ≠ k) :
    jLook (spreadFields fs [(k, v)]) k' = jLook fs k' := by
  rw [jLook_spreadFields]
  simp [jLook, Ne.symm h]

lemma jLook_jFields (p : JVal) (k : String) : jLook (jFields p) k = p.get? k := by
  cases p <;> rfl

lemma merge_payload_eq (cfg : PEvent) (u : PEvent) :
    (mergeSessionConfiguration (some cfg) u).payload
      = .obj (spreadFields (jFields u.payload) [("session",
          .obj (spreadFields (jFields (jOrEmptyObj (cfg.payload.get? "session")))
                              (jFields (jOrEmptyObj (u.payload.get? "session")))))]) := rfl

lemma merge_payload_get (cfg : PEvent) (u : PEvent) (k : String) (hk : k ≠ "session") :
    (mergeSessionConfiguration (some cfg) u).payload.get? k = u.payload.get? k := by
  rw [merge_payload_eq]
  show jLook _ k = _
  rw [jLook_spread_single_other _ _ _ _ hk, jLook_jFields]

lemma merge_session_get (cfg : PEvent) (u : PEvent) {acc m : List (String × JVal)}
    (hc : cfg.payload.get? "session" = some (.obj acc))
    (hu : u.payload.get? "session" = some (.obj m)) :
    (mergeSessionConfiguration (some cfg) u).payload.get? "session"
      = some (.obj (specApplyByKey acc m)) := by
  rw [merge_payload_eq, hc, hu]
  show jLook _ "session" = _
  rw [jLook_spread_single_same]
  simp [jOrEmptyObj, jTruthyV, jFields, spreadFields_eq_specApplyByKey]

lemma runUpdates_session (us : List PEvent) :
    ∀ (cfg : PEvent) (acc : List (String × JVal)),
      cfg.payload.get? "session" = some (.obj acc) →
      (∀ u ∈ us, ∃ m, u.payload.get? "session" = some (.obj m)) →
      ∃ cfg', runUpdates (some cfg) us = some cfg' ∧
        cfg'.payload.get? "session"
          = some (.obj (us.foldl (fun a u => specApplyByKey a (sessionFieldsOf u)) acc)) := by
  induction us with
  | nil => intro cfg acc hc _; exact ⟨cfg, rfl, by simpa using hc⟩
  | cons u rest ih =>
    intro cfg acc hc hall
    obtain ⟨m, hm⟩ := hall u (List.mem_cons_self _ _)
    have hstep := merge_session_get cfg u hc hm
    have hmfields : sessionFieldsOf u = m := by
      simp [sessionFieldsOf, hm, jFields]
    obtain ⟨cfg', h1, h2⟩ := ih (mergeSessionConfiguration (some cfg) u)
      (specApplyByKey acc m) hstep (fun v hv => hall v (List.mem_cons_of_mem _ hv))
    refine ⟨cfg', h1, ?_⟩
    rw [h2]
    simp [hmfields]

lemma runUpdates_setup_last : ∀ (us : List PEvent) (cfg : PEvent) (u' : PEvent),
    us.getLast? = some u' →
    ∃ cfg', runUpdates (some cfg) us = some cfg' ∧
      cfg'.payload.get? "setup" = u'.payload.get? "setup" := by
  intro us
  induction us with
  | nil => intro _ _ h; simp at h
  | cons u rest ih =>
    intro cfg u' hlast
    cases rest with
    | nil =>
      have hu : u = u' := by simpa using hlast
      subst hu
      exact ⟨_, rfl, merge_payload_get cfg u "setup" (by decide)⟩
    | cons u1 rest1 =>
      have hlast' : (u1 :: rest1).getLast? = some u' := by
        rwa [List.getLast?_cons_cons] at hlast
      obtain ⟨cfg', h1, h2⟩ := ih (mergeSessionConfiguration (some cfg) u) u' hlast'
      exact ⟨cfg', h1, h2⟩

/-- Claim C2 (amended): for a style-A client (session updates carrying a
top-level `session` object), the stored configuration's `session` sub-map
equals the left fold of the updates' session-field maps under shallow
last-writer-wins merge.  For a style-B client (updates carrying `setup`),
the stored `setup` sub-map is NOT merged: each later update replaces the
whole stored payload, so the stored `setup` equals the last update's
`setup` and fields absent from the last update are lost. -/
theorem c2_config_merge :
    (∀ us : List PEvent,
      (∀ u ∈ us, ∃ m, u.payload.get? "session" = some (.obj m)) →
      ∀ u0 rest, us = u0 :: rest →
      ∃ cfg, runUpdates none us = some cfg ∧
        cfg.payload.get? "session" = some (.obj (specFold (us.map sessionFieldsOf))))
    ∧ (∀ (u0 : PEvent) (us : List PEvent) (u' : PEvent),
      (u0 :: us).getLast? = some u' →
      ∃ cfg, runUpdates none (u0 :: us) = some cfg ∧
        cfg.payload.get? "setup" = u'.payload.get? "setup") := by
  constructor
  · intro us hall u0 rest hus
    subst hus
    obtain ⟨m0, hm0⟩ := hall u0 (List.mem_cons_self _ _)
    have h0 : runUpdates none (u0 :: rest) = runUpdates (some u0) rest := rfl
    obtain ⟨cfg, h1, h2⟩ := runUpdates_session rest u0 m0 hm0
      (fun v hv => hall v (List.mem_cons_of_mem _ hv))
    refine ⟨cfg, by rw [h0, h1], ?_⟩
    rw [h2]
    have hm0fields : sessionFieldsOf u0 = m0 := by
      simp [sessionFieldsOf, hm0, jFields]
    have : specFold ((u0 :: rest).map sessionFieldsOf)
        = rest.foldl (fun a u => specApplyByKey a (sessionFieldsOf u))
            (specApplyByKey [] m0) := by
      simp [specFold, hm0fields, List.foldl_map]
    rw [this]
    have hid : specApplyByKey [] m0 = m0 := by
      simp [specApplyByKey, jLook]
    rw [hid]
  · intro u0 us u' hlast
    cases us with
    | nil =>
      have hu : u0 = u' := by simpa using hlast
      subst hu
      exact ⟨u0, rfl, rfl⟩
    | cons u1 rest1 =>
      have hlast' : (u1 :: rest1).getLast? = some u' := by
        rwa [List.getLast?_cons_cons] at hlast
      exact runUpdates_setup_last (u1 :: rest1) u0 u' hlast'

/-- Witness for `c2_config_merge`: two style-A updates fold by top-level
key, and two style-B (`setup`) updates leave exactly the last `setup`. -/
theorem c2_config_merge_witness :
    (∃ cfg, runUpdates none
        [⟨Prov.openai, .obj [("session", .obj [("voice", .str "a"), ("instructions", .str "i")])]⟩,
         ⟨Prov.openai, .obj [("session", .obj [("voice", .str "b")])]⟩] = some cfg ∧
      cfg.payload.get? "session"
        = some (.obj (specFold
            [[("voice", .str "a"), ("instructions", .str "i")], [("voice", .str "b")]])))
    ∧ (∃ cfg, runUpdates none
        [⟨Prov.gemini, .obj [("setup", .obj [("a", .num 1), ("b", .num 2)])]⟩,
         ⟨Prov.gemini, .obj [("setup", .obj [("a", .num 3)])]⟩] = some cfg ∧
      cfg.payload.get? "setup"
        = (JVal.obj [("setup", .obj [("a", .num 3)])]).get? "setup") := by
  constructor
  · have h := c2_config_merge.1
      [⟨Prov.openai, .obj [("session", .obj [("voice", .str "a"), ("instructions", .str "i")])]⟩,
       ⟨Prov.openai, .obj [("session", .obj [("voice", .str "b")])]⟩]
      (by
        intro u hu
        simp only [List.mem_cons, List.not_mem_nil, or_false] at hu
        rcases hu with rfl | rfl
        · exact ⟨_, rfl⟩
        · exact ⟨_, rfl⟩)
      _ _ rfl
    simpa [sessionFieldsOf] using h
  · exact c2_config_merge.2
      ⟨Prov.gemini, .obj [("setup", .obj [("a", .num 1), ("b", .num 2)])]⟩
      [⟨Prov.gemini, .obj [("setup", .obj [("a", .num 3)])]⟩]
      ⟨Prov.gemini, .obj [("setup", .obj [("a", .num 3)])]⟩ rfl

/-- Counterexample to claim C2 as stated: for a style-B client, two `setup`
updates are NOT folded by top-level key — the stored `setup` is the last
update's `setup` (field `b` is dropped), whereas the spec's fold preserves
`b`. -/
theorem c2_setup_counterexample :
    (runUpdates none
        [⟨Prov.gemini, .obj [("setup", .obj [("a", .num 1), ("b", .num 2)])]⟩,
         ⟨Prov.gemini, .obj [("setup", .obj [("a", .num 3)])]⟩]).map
      (fun cfg => jget (cfg.payload.get? "setup") "b") = some none
    ∧ jLook (specApplyByKey [("a", .num 1), ("b", .num 2)] [("a", .num 3)]) "b"
        = some (.num 2) := by
  exact ⟨rfl, rfl⟩

/-! ## Replay enrichment (`SessionManager.getSessionConfiguration`) -/

/-- JS string coercion as used by `+` on a truthy value; on the
spec-shaped configs this is only reached with string fields. -/
def jCoerceStr : JVal → String
  | .str s => s
  | .num n => toString n
  | .flt m e => toString m ++ "e-" ++ toString e
  | .bool b => cond b "true" "false"
  | .null => "null"
  | .arr _ => ""
  | .obj _ => "[object Object]"

/-- `(x || '')` as a string. -/
def jsOrEmptyStr (v : Option JVal) : String :=
  match v with
  | some x => if jTruthyV x then jCoerceStr x else ""
  | none => ""

/-- JS property assignment on an object's field list: updates in place when
the key exists, appends otherwise. -/
def setFieldList : List (String × JVal) → String → JVal → List (String × JVal)
  | [], k, x => [(k, x)]
  | (k0, v0) :: fs, k, x =>
    if k0 = k then (k0, x) :: fs else (k0, v0) :: setFieldList fs k x

/-- JS property assignment `v.k = x` (a no-op on non-objects, as for
primitives in non-strict JS). -/
def objSet (v : JVal) (k : String) (x : JVal) : JVal :=
  match v with
  | .obj fs => .obj (setFieldList fs k x)
  | v => v

/-- Optional-chained index `v?.[i]`. -/
def jIdx (v : Option JVal) (i : Nat) : Option JVal :=
  v.bind (fun x => match x with | .arr l => l.get? i | _ => none)

/-- In-place update of element 0 of an array value. -/
def arrSet0 (v : JVal) (x : JVal) : JVal :=
  match v with
  | .arr (_ :: rest) => .arr (x :: rest)
  | v => v

/-- The fixed prior-conversation sentence prepended to the transcript
(`contextPrompt` in `getSessionConfiguration`). -/
def ctxPromptFor (h : String) : String :=
  "\n\nHere is the previous conversation that happened which should be continued now:\n" ++ h

/-- `SessionManager.getSessionConfiguration`, modelled as a pure function
of the (re-loaded) stored config and the loaded conversation history
(`hist = none` when no transcript exists, i.e. the read returned nothing
or an empty string).  The source clones the stored config with a JSON
deep copy before enriching, so the stored value itself is untouched —
which the pure embedding makes implicit. -/
def getSessionConfiguration (style : Prov) (stored : Option PEvent)
    (hist : Option String) : Option PEvent :=
  match stored with
  | none => none
  | some cfg =>
    match hist with
    | none => some cfg
    | some h =>
      let cp := ctxPromptFor h
      match style with
      | .openai =>
        if jTruthy (cfg.payload.get? "session") then
          let session := (cfg.payload.get? "session").getD .null
          let ins := jsOrEmptyStr (session.get? "instructions")
          let newSession := objSet session "instructions" (.str (ins ++ cp))
          some { cfg with payload := objSet cfg.payload "session" newSession }
        else some cfg
      | .gemini =>
        let p0 := jIdx (jget (jget (cfg.payload.get? "setup") "systemInstruction") "parts") 0
        if jTruthy p0 then
          let setup := (cfg.payload.get? "setup").getD .null
          let si := (setup.get? "systemInstruction").getD .null
          let parts := (si.get? "parts").getD .null
          let part0 := p0.getD .null
          let t := jsOrEmptyStr (part0.get? "text")
          let newP0 := objSet part0 "text" (.str (t ++ cp))
          let newSi := objSet si "parts" (arrSet0 parts newP0)
          let newSetup := objSet setup "systemInstruction" newSi
          some { cfg with payload := objSet cfg.payload "setup" newSetup }
        else some cfg

@[simp] lemma get?_obj (fs : List (String × JVal)) (k : String) :
    (JVal.obj fs).get? k = jLook fs k := rfl

@[simp] lemma jget_some (v : JVal) (k : String) : jget (some v) k = v.get? k := rfl

lemma jLook_setFieldList_same (fs : List (String × JVal)) (k : String) (x : JVal) :
    jLook (setFieldList fs k x) k = some x := by
  induction fs with
  | nil => simp [setFieldList, jLook]
  | cons hd tl ih =>
    by_cases hk : hd.1 = k
    · simp [setFieldList, hk, jLook]
    · simpa [setFieldList, hk, jLook] using ih

lemma jLook_setFieldList_other (fs : List (String × JVal)) {k k' : String} (x : JVal)
    (h : k' ≠ k) :
    jLook (setFieldList fs k x) k' = jLook fs k' := by
  induction fs with
  | nil => simp [setFieldList, jLook, Ne.symm h]
  | cons hd tl ih =>
    by_cases hk : hd.1 = k
    · have : ¬ hd.1 = k' := fun hc => h (hc ▸ hk ▸ rfl)
      simp [setFieldList, hk, jLook, this, Ne.symm h]
    · by_cases hk' : hd.1 = k'
      · simp [setFieldList, hk, jLook, hk', h]
      · simpa [setFieldList, hk, jLook, hk'] using ih

/-- Claim C3: `getSessionConfiguration` returns `null` exactly when no
config was ever stored; with no transcript it returns the stored config
unmodified; with a transcript it returns a copy whose instructions field
(`payload.session.instructions` for style A,
`payload.setup.systemInstruction.parts[0].text` for style B) equals the
original instructions followed by the fixed prior-conversation sentence
and the transcript, everything else unchanged. -/
theorem c3_replay_enrichment :
    (∀ style stored hist,
      getSessionConfiguration style stored hist = none ↔ stored = none)
    ∧ (∀ style (cfg : PEvent), getSessionConfiguration style (some cfg) none = some cfg)
    ∧ (∀ (cfg : PEvent) (h : String) pfs sfs,
        cfg.payload = .obj pfs → jLook pfs "session" = some (.obj sfs) →
        getSessionConfiguration .openai (some cfg) (some h)
          = some { cfg with payload := .obj (setFieldList pfs "session"
              (.obj (setFieldList sfs "instructions"
                (.str (jsOrEmptyStr (jLook sfs "instructions") ++ ctxPromptFor h))))) }
        ∧ jget ((JVal.obj (setFieldList pfs "session"
              (.obj (setFieldList sfs "instructions"
                (.str (jsOrEmptyStr (jLook sfs "instructions") ++ ctxPromptFor h)))))).get?
              "session") "instructions"
            = some (.str (jsOrEmptyStr (jLook sfs "instructions") ++ ctxPromptFor h))
        ∧ (∀ k, k ≠ "session" →
            (JVal.obj (setFieldList pfs "session"
              (.obj (setFieldList sfs "instructions"
                (.str (jsOrEmptyStr (jLook sfs "instructions") ++ ctxPromptFor h)))))).get? k
              = cfg.payload.get? k)
        ∧ (∀ k, k ≠ "instructions" →
            jLook (setFieldList sfs "instructions"
                (.str (jsOrEmptyStr (jLook sfs "instructions") ++ ctxPromptFor h))) k
              = jLook sfs k))
    ∧ (∀ (cfg : PEvent) (h : String) pfs stfs sifs p0fs ps,
        cfg.payload = .obj pfs → jLook pfs "setup" = some (.obj stfs) →
        jLook stfs "systemInstruction" = some (.obj sifs) →
        jLook sifs "parts" = some (.arr (.obj p0fs :: ps)) →
        getSessionConfiguration .gemini (some cfg) (some h)
          = some { cfg with payload := .obj (setFieldList pfs "setup"
              (.obj (setFieldList stfs "systemInstruction"
                (.obj (setFieldList sifs "parts"
                  (.arr (.obj (setFieldList p0fs "text"
                    (.str (jsOrEmptyStr (jLook p0fs "text") ++ ctxPromptFor h))) :: ps))))))) }) := by
  refine ⟨?_, ?_, ?_, ?_⟩
  · intro style stored hist
    cases stored with
    | none => simp [getSessionConfiguration]
    | some cfg =>
      simp only [getSessionConfiguration]
      cases hist with
      | none => simp
      | some h =>
        cases style <;> dsimp only <;> split <;> simp
  · intro style cfg; rfl
  · intro cfg h pfs sfs hp hs
    have hget : cfg.payload.get? "session" = some (.obj sfs) := by
      rw [hp]; exact hs
    constructor
    · simp only [getSessionConfiguration, hget, jTruthy, jTruthyV, if_pos, Option.getD_some]
      rw [hp]
      rfl
    · refine ⟨?_, ?_, ?_⟩
      · show jget (jLook (setFieldList pfs "session" _) "session") "instructions" = _
        rw [jLook_setFieldList_same]
        show jLook (setFieldList sfs "instructions" _) "instructions" = _
        rw [jLook_setFieldList_same]
      · intro k hk
        show jLook (setFieldList pfs "session" _) k = _
        rw [jLook_setFieldList_other _ _ hk, hp]
        rfl
      · intro k hk
        exact jLook_setFieldList_other _ _ hk
  · intro cfg h pfs stfs sifs p0fs ps hp hsetup hsi hparts
    have hget : cfg.payload.get? "setup" = some (.obj stfs) := by
      rw [hp]; simpa using hsetup
    have hchain : jIdx (jget (jget (cfg.payload.get? "setup") "systemInstruction") "parts") 0
        = some (.obj p0fs) := by
      rw [hget]
      simp [hsi, hparts, jIdx]
    simp only [getSessionConfiguration]
    rw [hchain, hp]
    simp [jTruthy, jTruthyV, get?_obj, hsetup, hsi, hparts, jIdx, objSet, arrSet0]

/-- Witness for `c3_replay_enrichment` at a concrete stored config and
transcript for both styles. -/
theorem c3_replay_enrichment_witness :
    getSessionConfiguration .openai
        (some ⟨.openai, .obj [("type", .str "session.update"),
          ("session", .obj [("instructions", .str "i")])]⟩)
        (some "user:hello")
      = some ⟨.openai, .obj [("type", .str "session.update"),
          ("session", .obj [("instructions",
            .str ("i" ++ ctxPromptFor "user:hello"))])]⟩
    ∧ getSessionConfiguration .gemini
        (some ⟨.gemini, .obj [("setup", .obj [("systemInstruction",
          .obj [("parts", .arr [.obj [("text", .str "t")]])])])]⟩)
        (some "user:hello")
      = some ⟨.gemini, .obj [("setup", .obj [("systemInstruction",
          .obj [("parts", .arr [.obj [("text",
            .str ("t" ++ ctxPromptFor "user:hello"))]])])])]⟩ := by
  constructor
  · have h := (c3_replay_enrichment.2.2.1
      ⟨.openai, .obj [("type", .str "session.update"),
        ("session", .obj [("instructions", .str "i")])]⟩
      "user:hello"
      [("type", .str "session.update"), ("session", .obj [("instructions", .str "i")])]
      [("instructions", .str "i")] rfl rfl).1
    simpa [setFieldList, jLook, jsOrEmptyStr, jTruthyV, jCoerceStr] using h
  · have h := c3_replay_enrichment.2.2.2
      ⟨.gemini, .obj [("setup", .obj [("systemInstruction",
        .obj [("parts", .arr [.obj [("text", .str "t")]])])])]⟩
      "user:hello"
      [("setup", .obj [("systemInstruction",
        .obj [("parts", .arr [.obj [("text", .str "t")]])])])]
      [("systemInstruction", .obj [("parts", .arr [.obj [("text", .str "t")]])])]
      [("parts", .arr [.obj [("text", .str "t")]])]
      [("text", .str "t")] [] rfl rfl rfl rfl
    simpa [setFieldList, jLook, jsOrEmptyStr, jTruthyV, jCoerceStr] using h

/-! ## Checkpointer transcript buffer (`BaseCheckpoint`, src/unnamed/part_007) -/

/-- `ConversationEntry['type']`. -/
inductive CKind where
  | user
  | agent
  | agentSummary
  | agentCheckpoint
deriving DecidableEq, Repr

/-- The on-disk tag of each kind. -/
def CKind.tag : CKind → String
  | .user => "user"
  | .agent => "agent"
  | .agentSummary => "agent_summary"
  | .agentCheckpoint => "agent_checkpoint"

/-- `Array.prototype.join('')`. -/
def joinAll : List String → String
  | [] => ""
  | s :: rest => s ++ joinAll rest

/-- Buffering state of `BaseCheckpoint` plus the contents of the
persistence appends it has scheduled (fire-and-forget), in order. -/
structure CkptSt where
  currentType : Option CKind
  buffer : List String
  totalChars : Nat
  appends : List String
deriving DecidableEq, Repr

/-- `BUFFER_SIZE_LIMIT`. -/
def BUFFER_SIZE_LIMIT : Nat := 200

/-- `BaseCheckpoint.flushBuffer`: schedules one append of the joined
buffer when non-empty, then resets the buffering state immediately. -/
def flushBuffer (st : CkptSt) : CkptSt :=
  let st1 := if st.buffer.length > 0
    then { st with appends := st.appends ++ [joinAll st.buffer] }
    else st
  { st1 with currentType := none, buffer := [], totalChars := 0 }

/-- The push half of `BaseCheckpoint.save`: on a kind change a `\n`
(omitted when the buffer is empty) and a fresh `kind:` tag precede the
delta; otherwise the delta alone is appended; the character count grows by
the delta's length only. -/
def pushEntry (st : CkptSt) (ty : CKind) (content : String) : CkptSt :=
  let st1 :=
    if st.currentType ≠ some ty then
      let pre := if st.buffer.length > 0 then "\n" else ""
      { st with buffer := st.buffer ++ [pre ++ ty.tag ++ ":" ++ content],
                currentType := some ty }
    else
      { st with buffer := st.buffer ++ [content] }
  { st1 with totalChars := st1.totalChars + content.length }

/-- `BaseCheckpoint.save`: push, then flush when the total strictly
exceeds the limit. -/
def save (st : CkptSt) (ty : CKind) (content : String) : CkptSt :=
  let st2 := pushEntry st ty content
  if st2.totalChars > BUFFER_SIZE_LIMIT then flushBuffer st2 else st2

/-- A sequence of transcript deltas run through `save`. -/
def runSaves : CkptSt → List (CKind × String) → CkptSt
  | st, [] => st
  | st, (k, c) :: rest => runSaves (save st k c) rest

/-- Modelled from the spec (§3, P4): group a delta sequence into maximal
runs of equal kind (left fold; each delta either extends the last run or
opens a new one). -/
def groupStep (acc : List (CKind × List String)) (e : CKind × String) :
    List (CKind × List String) :=
  match acc.getLast? with
  | some (k, ts) =>
    if k = e.1 then acc.dropLast ++ [(k, ts ++ [e.2])] else acc ++ [(e.1, [e.2])]
  | none => [(e.1, [e.2])]

/-- Modelled from the spec: run-length grouping of the delta kinds. -/
def groupRuns (l : List (CKind × String)) : List (CKind × List String) :=
  l.foldl groupStep []

/-- Modelled from the spec: one line per run, `kind:` then the texts
concatenated with no separator. -/
def renderGroup (g : CKind × List String) : String :=
  g.1.tag ++ ":" ++ joinAll g.2

/-- Modelled from the spec: a newline precedes every kind change. -/
def renderGroups : List (CKind × List String) → String
  | [] => ""
  | [g] => renderGroup g
  | g :: g2 :: gs => renderGroup g ++ "\n" ++ renderGroups (g2 :: gs)

/-- Total number of delta characters in a save sequence. -/
def totalLen (l : List (CKind × String)) : Nat :=
  (l.map (fun e => e.2.length)).sum

lemma joinAll_append (a b : List String) : joinAll (a ++ b) = joinAll a ++ joinAll b := by
  induction a with
  | nil => simp [joinAll]
  | cons s rest ih => simp [joinAll, ih, String.append_assoc]

lemma renderGroups_snoc (l : List (CKind × List String)) (g : CKind × List String) :
    renderGroups (l ++ [g])
      = if l = [] then renderGroup g else renderGroups l ++ "\n" ++ renderGroups [g] := by
  induction l with
  | nil => simp [renderGroups]
  | cons g1 rest ih =>
    cases rest with
    | nil => simp [renderGroups]
    | cons g2 rest2 =>
      have hne : g2 :: rest2 ≠ [] := by simp
      calc renderGroups ((g1 :: g2 :: rest2) ++ [g])
          = renderGroup g1 ++ "\n" ++ renderGroups ((g2 :: rest2) ++ [g]) := by
            cases rest2 <;> simp [renderGroups]
        _ = renderGroup g1 ++ "\n" ++ (renderGroups (g2 :: rest2) ++ "\n" ++ renderGroups [g]) := by
            rw [ih]; simp [hne]
        _ = if (g1 :: g2 :: rest2) = [] then renderGroup g
              else renderGroups (g1 :: g2 :: rest2) ++ "\n" ++ renderGroups [g] := by
            simp [renderGroups, String.append_assoc]

lemma exists_snoc_of_getLast? {α : Type} {l : List α} {a : α} (h : l.getLast? = some a) :
    ∃ l', l = l' ++ [a] := by
  induction l with
  | nil => simp at h
  | cons x rest ih =>
    cases rest with
    | nil =>
      simp only [List.getLast?_singleton, Option.some.injEq] at h
      exact ⟨[], by simp [h]⟩
    | cons y rest2 =>
      rw [List.getLast?_cons_cons] at h
      obtain ⟨l', hl⟩ := ih h
      exact ⟨x :: l', by simp [hl]⟩

lemma groupStep_getLast (acc : List (CKind × List String)) (e : CKind × String) :
    (groupStep acc e).getLast?.map Prod.fst = some e.1 := by
  unfold groupStep
  cases hl : acc.getLast? with
  | none => simp
  | some g =>
    obtain ⟨k, ts⟩ := g
    by_cases hk : k = e.1
    · simp [hk, List.getLast?_concat]
    · simp [hk, List.getLast?_concat]

lemma render_groupStep_same (acc : List (CKind × List String)) (e : CKind × String)
    {k : CKind} {ts : List String}
    (hl : acc.getLast? = some (k, ts)) (hk : k = e.1) :
    renderGroups (groupStep acc e) = renderGroups acc ++ e.2 := by
  subst hk
  obtain ⟨l', rfl⟩ := exists_snoc_of_getLast? hl
  have hstep : groupStep (l' ++ [(e.1, ts)]) e = l' ++ [(e.1, ts ++ [e.2])] := by
    unfold groupStep
    rw [hl]
    simp
  rw [hstep, renderGroups_snoc, renderGroups_snoc]
  by_cases hnil : l' = []
  · subst hnil
    simp [renderGroups, renderGroup, joinAll_append, joinAll, String.append_assoc]
  · simp [hnil, renderGroups, renderGroup, joinAll_append, joinAll, String.append_assoc]

lemma render_groupStep_new (acc : List (CKind × List String)) (e : CKind × String)
    (hne : acc.getLast?.map Prod.fst ≠ some e.1) :
    renderGroups (groupStep acc e)
      = (if acc = [] then "" else renderGroups acc ++ "\n")
        ++ renderGroup (e.1, [e.2]) := by
  unfold groupStep
  cases hl : acc.getLast? with
  | none =>
    have hnil : acc = [] := by
      cases acc with
      | nil => rfl
      | cons x rest =>
        obtain ⟨l', hl'⟩ : ∃ l' a, x :: rest = l' ++ [a] := by
          refine ⟨(x :: rest).dropLast, (x :: rest).getLast (by simp), ?_⟩
          exact (List.dropLast_append_getLast (by simp)).symm
        obtain ⟨a, ha⟩ := hl'
        rw [ha, List.getLast?_concat] at hl
        simp at hl
    subst hnil
    simp [renderGroups]
  | some g =>
    obtain ⟨k, ts⟩ := g
    have hk : ¬ k = e.1 := by
      intro hc; exact hne (by rw [hl, hc]; rfl)
    simp only [if_neg hk]
    have hanil : acc ≠ [] := by
      intro hc; rw [hc] at hl; simp at hl
    rw [renderGroups_snoc]
    simp [hanil, renderGroups, String.append_assoc]

lemma str_append_empty (s : String) : s ++ "" = s := by
  cases s; simp [Append.append, String.append]

lemma totalLen_snoc (l : List (CKind × String)) (e : CKind × String) :
    totalLen (l ++ [e]) = totalLen l + e.2.length := by
  simp [totalLen]

lemma groupRuns_snoc (l : List (CKind × String)) (e : CKind × String) :
    groupRuns (l ++ [e]) = groupStep (groupRuns l) e := by
  simp [groupRuns, List.foldl_append]

lemma groupStep_ne_nil (acc : List (CKind × List String)) (e : CKind × String) :
    groupStep acc e ≠ [] := by
  unfold groupStep
  cases hl : acc.getLast? with
  | none => simp
  | some g =>
    obtain ⟨k, ts⟩ := g
    by_cases hk : k = e.1 <;> simp [hk]

lemma groupRuns_ne_nil {l : List (CKind × String)} (h : l ≠ []) : groupRuns l ≠ [] := by
  induction l using List.reverseRecOn with
  | nil => exact absurd rfl h
  | append_singleton l' e _ =>
    rw [groupRuns_snoc]
    exact groupStep_ne_nil _ _

lemma pushEntry_step (st : CkptSt) (steps : List (CKind × String)) (k : CKind) (c : String)
    (hbuf : joinAll st.buffer = renderGroups (groupRuns steps))
    (hty : st.currentType = (groupRuns steps).getLast?.map Prod.fst)
    (hlen : st.totalChars = totalLen steps)
    (hemp : st.buffer = [] ↔ steps = []) :
    joinAll (pushEntry st k c).buffer = renderGroups (groupRuns (steps ++ [(k, c)]))
    ∧ (pushEntry st k c).currentType
        = (groupRuns (steps ++ [(k, c)])).getLast?.map Prod.fst
    ∧ (pushEntry st k c).totalChars = totalLen (steps ++ [(k, c)])
    ∧ (pushEntry st k c).buffer ≠ []
    ∧ (pushEntry st k c).appends = st.appends := by
  have hg : groupRuns (steps ++ [(k, c)]) = groupStep (groupRuns steps) (k, c) :=
    groupRuns_snoc _ _
  have hgl : (groupRuns (steps ++ [(k, c)])).getLast?.map Prod.fst = some k := by
    rw [hg]; exact groupStep_getLast _ _
  by_cases hsame : st.currentType = some k
  · obtain ⟨ts, hts⟩ : ∃ ts, (groupRuns steps).getLast? = some (k, ts) := by
      rw [hty] at hsame
      cases hl : (groupRuns steps).getLast? with
      | none => rw [hl] at hsame; simp at hsame
      | some g =>
        obtain ⟨k', ts⟩ := g
        rw [hl] at hsame
        simp at hsame
        exact ⟨ts, by rw [hsame]⟩
    have hpe : pushEntry st k c
        = { st with buffer := st.buffer ++ [c], totalChars := st.totalChars + c.length } := by
      unfold pushEntry
      rw [if_neg (not_not_intro hsame)]
    rw [hpe]
    refine ⟨?_, ?_, ?_, ?_, rfl⟩
    · show joinAll (st.buffer ++ [c]) = _
      rw [joinAll_append, hbuf, hg,
        render_groupStep_same (groupRuns steps) (k, c) hts rfl]
      simp [joinAll, str_append_empty]
    · simpa [hgl] using hsame
    · simp [hlen, totalLen_snoc]
    · show st.buffer ++ [c] ≠ []
      simp
  · have hne : (groupRuns steps).getLast?.map Prod.fst ≠ some k := by
      rw [← hty]; exact hsame
    have hpe : pushEntry st k c
        = { st with
            buffer := st.buffer
              ++ [(if st.buffer.length > 0 then "\n" else "") ++ k.tag ++ ":" ++ c],
            currentType := some k,
            totalChars := st.totalChars + c.length } := by
      unfold pushEntry
      rw [if_pos hsame]
    rw [hpe]
    refine ⟨?_, ?_, ?_, ?_, rfl⟩
    · show joinAll (st.buffer ++ [_]) = _
      rw [joinAll_append, hbuf, hg, render_groupStep_new (groupRuns steps) (k, c) hne]
      by_cases hb : st.buffer = []
      · have hst : steps = [] := hemp.mp hb
        subst hst
        simp [hb, groupRuns, renderGroups, renderGroup, joinAll, str_append_empty,
          String.append_assoc]
      · have hsteps : steps ≠ [] := fun hc => hb (hemp.mpr hc)
        have hgr : groupRuns steps ≠ [] := groupRuns_ne_nil hsteps
        have hblen : st.buffer.length > 0 := List.length_pos.mpr hb
        simp [hgr, hblen, renderGroup, joinAll, str_append_empty, String.append_assoc]
    · simp [hgl]
    · simp [hlen, totalLen_snoc]
    · show st.buffer ++ [_] ≠ []
      simp

lemma runSaves_append (st : CkptSt) (l1 l2 : List (CKind × String)) :
    runSaves st (l1 ++ l2) = runSaves (runSaves st l1) l2 := by
  induction l1 generalizing st with
  | nil => rfl
  | cons e rest ih =>
    obtain ⟨k, c⟩ := e
    simp [runSaves, ih]

lemma runSaves_inv (ap : List String) :
    ∀ steps, totalLen steps ≤ BUFFER_SIZE_LIMIT →
      joinAll (runSaves ⟨none, [], 0, ap⟩ steps).buffer = renderGroups (groupRuns steps)
      ∧ (runSaves ⟨none, [], 0, ap⟩ steps).currentType
          = (groupRuns steps).getLast?.map Prod.fst
      ∧ (runSaves ⟨none, [], 0, ap⟩ steps).totalChars = totalLen steps
      ∧ ((runSaves ⟨none, [], 0, ap⟩ steps).buffer = [] ↔ steps = [])
      ∧ (runSaves ⟨none, [], 0, ap⟩ steps).appends = ap := by
  intro steps
  induction steps using List.reverseRecOn with
  | nil =>
    intro _
    exact ⟨rfl, rfl, rfl, by simp [runSaves], rfl⟩
  | append_singleton l e ih =>
    intro hle
    obtain ⟨k, c⟩ := e
    have hl : totalLen l ≤ BUFFER_SIZE_LIMIT := by
      rw [totalLen_snoc] at hle; omega
    obtain ⟨hbuf, hty, hlen, hemp, happ⟩ := ih hl
    obtain ⟨p1, p2, p3, p4, p5⟩ :=
      pushEntry_step (runSaves ⟨none, [], 0, ap⟩ l) l k c hbuf hty hlen hemp
    have hrun : runSaves ⟨none, [], 0, ap⟩ (l ++ [(k, c)])
        = save (runSaves ⟨none, [], 0, ap⟩ l) k c := by
      rw [runSaves_append]; rfl
    have hnof : save (runSaves ⟨none, [], 0, ap⟩ l) k c
        = pushEntry (runSaves ⟨none, [], 0, ap⟩ l) k c := by
      have hcond : ¬ (pushEntry (runSaves ⟨none, [], 0, ap⟩ l) k c).totalChars
          > BUFFER_SIZE_LIMIT := by
        rw [p3, totalLen_snoc]
        rw [totalLen_snoc] at hle
        omega
      unfold save
      rw [if_neg hcond]
    rw [hrun, hnof]
    refine ⟨p1, p2, p3, ?_, by rw [p5, happ]⟩
    simp [p4]

/-- Claim C5: starting from a freshly flushed buffer, as long as no flush
threshold is crossed, contiguous same-kind deltas are concatenated in the
buffer with no separator, and each kind change contributes exactly one
newline (omitted for the first entry) and a fresh `kind:` tag — i.e. the
joined buffer renders the run-length grouping of the delta sequence. -/
theorem c5_transcript_grouping (ap : List String) (steps : List (CKind × String))
    (h : totalLen steps ≤ BUFFER_SIZE_LIMIT) :
    joinAll ((runSaves ⟨none, [], 0, ap⟩ steps).buffer)
      = renderGroups (groupRuns steps) :=
  (runSaves_inv ap steps h).1

/-- Witness for `c5_transcript_grouping`: two agent deltas then a user
delta render as `agent:hello\nuser:yo`. -/
theorem c5_transcript_grouping_witness :
    joinAll ((runSaves ⟨none, [], 0, []⟩
        [(CKind.agent, "he"), (CKind.agent, "llo"), (CKind.user, "yo")]).buffer)
      = renderGroups (groupRuns
          [(CKind.agent, "he"), (CKind.agent, "llo"), (CKind.user, "yo")])
    ∧ renderGroups (groupRuns
          [(CKind.agent, "he"), (CKind.agent, "llo"), (CKind.user, "yo")])
        = "agent:hello\nuser:yo" := by
  refine ⟨c5_transcript_grouping []
    [(CKind.agent, "he"), (CKind.agent, "llo"), (CKind.user, "yo")] (by decide), ?_⟩
  rfl

/-- Claim C6 (amended): no persistence append is scheduled while the
accumulated delta-character total is at most 200 (the source flushes only
when the total strictly exceeds `BUFFER_SIZE_LIMIT = 200`, so reaching
exactly 200 does not flush); the delta that pushes the total beyond 200
schedules exactly one append holding the entire joined buffer, after which
the buffer is empty, the character count is zero and the current kind is
none. -/
theorem c6_flush_boundary :
    (∀ (ap : List String) steps, totalLen steps ≤ BUFFER_SIZE_LIMIT →
      (runSaves ⟨none, [], 0, ap⟩ steps).appends = ap)
    ∧ (∀ (ap : List String) steps (k : CKind) (c : String),
        totalLen steps ≤ BUFFER_SIZE_LIMIT →
        BUFFER_SIZE_LIMIT < totalLen steps + c.length →
        runSaves ⟨none, [], 0, ap⟩ (steps ++ [(k, c)])
          = ⟨none, [], 0, ap ++ [renderGroups (groupRuns (steps ++ [(k, c)]))]⟩) := by
  constructor
  · intro ap steps h
    exact (runSaves_inv ap steps h).2.2.2.2
  · intro ap steps k c hle hover
    obtain ⟨hbuf, hty, hlen, hemp, happ⟩ := runSaves_inv ap steps hle
    obtain ⟨p1, p2, p3, p4, p5⟩ :=
      pushEntry_step (runSaves ⟨none, [], 0, ap⟩ steps) steps k c hbuf hty hlen hemp
    have hrun : runSaves ⟨none, [], 0, ap⟩ (steps ++ [(k, c)])
        = save (runSaves ⟨none, [], 0, ap⟩ steps) k c := by
      rw [runSaves_append]; rfl
    have hflush : save (runSaves ⟨none, [], 0, ap⟩ steps) k c
        = flushBuffer (pushEntry (runSaves ⟨none, [], 0, ap⟩ steps) k c) := by
      unfold save
      rw [if_pos]
      rw [p3, totalLen_snoc]
      simpa using hover
    rw [hrun, hflush]
    unfold flushBuffer
    rw [if_pos (List.length_pos.mpr p4)]
    have : joinAll (pushEntry (runSaves ⟨none, [], 0, ap⟩ steps) k c).buffer
        = renderGroups (groupRuns (steps ++ [(k, c)])) := p1
    rw [this, p5, happ]

/-- Witness for `c6_flush_boundary`: 150 agent characters stay buffered; a
60-character user delta crosses the limit and schedules exactly one append
of the whole grouped buffer, resetting the state. -/
theorem c6_flush_boundary_witness :
    runSaves ⟨none, [], 0, []⟩
        ([(CKind.agent, String.mk (List.replicate 150 'a'))]
          ++ [(CKind.user, String.mk (List.replicate 60 'b'))])
      = ⟨none, [], 0, [renderGroups (groupRuns
          ([(CKind.agent, String.mk (List.replicate 150 'a'))]
            ++ [(CKind.user, String.mk (List.replicate 60 'b'))]))]⟩ := by
  exact c6_flush_boundary.2 [] [(CKind.agent, String.mk (List.replicate 150 'a'))]
    CKind.user (String.mk (List.replicate 60 'b'))
    (by set_option maxRecDepth 2000 in decide)
    (by set_option maxRecDepth 2000 in decide)

/-- Counterexample to claim C6 as stated: a sequence totalling exactly 200
characters (199 then 1 more) schedules NO append — the flush fires only
strictly above 200, not on reaching it. -/
theorem c6_boundary_counterexample :
    totalLen [(CKind.agent, String.mk (List.replicate 199 'a')), (CKind.agent, "b")]
        = 200
    ∧ (runSaves ⟨none, [], 0, []⟩
        [(CKind.agent, String.mk (List.replicate 199 'a')), (CKind.agent, "b")]).appends
        = [] := by
  constructor
  · set_option maxRecDepth 2000 in decide
  · rfl

/-! ## Event bus emit (`EventManager.emitEvent`, src/unnamed/part_000) -/

/-- `emitEvent` runs `subscribers.forEach(sub => sub.receiveEvent(event))`
with no try/catch.  Each subscriber is abstracted by whether its `receive`
throws on this event (`true` = throws).  The result is the number of
subscribers whose `receive` was invoked (in subscription order) and
whether the loop completed without an exception escaping to the emitter:
`forEach` aborts on the first throw. -/
def emitEvent : List Bool → Nat × Bool
  | [] => (0, true)
  | b :: rest =>
    if b then (1, false)
    else
      let r := emitEvent rest
      (r.1 + 1, r.2)

/-- Claim C8 (amended): subscriber deliveries are NOT isolated — an error
raised by subscriber `s_i` aborts the loop, so exactly the subscribers up
to and including the first throwing one are called, and the exception
propagates to the emitter (it is not caught or logged by `emitEvent`). -/
theorem c8_emit_abort (subs : List Bool) :
    (emitEvent subs).1
      = (match subs.findIdx? (fun b => b) with
          | some i => i + 1
          | none => subs.length)
    ∧ ((emitEvent subs).2 = true ↔ ∀ b ∈ subs, b = false) := by
  induction subs with
  | nil => exact ⟨rfl, by simp [emitEvent]⟩
  | cons b rest ih =>
    cases b with
    | true => simp [emitEvent, List.findIdx?_cons]
    | false =>
      refine ⟨?_, ?_⟩
      · show (emitEvent rest).1 + 1 = _
        rw [ih.1]
        cases h : rest.findIdx? (fun b => b) <;> simp [List.findIdx?_cons, h]
      · show (emitEvent rest).2 = true ↔ _
        rw [ih.2]
        simp

/-- Witness for `c8_emit_abort` on a concrete subscriber list. -/
theorem c8_emit_abort_witness :
    (emitEvent [false, true, false]).1 = 2
    ∧ ¬ (emitEvent [false, true, false]).2 = true := by
  have h := c8_emit_abort [false, true, false]
  refine ⟨by rw [h.1]; rfl, ?_⟩
  rw [h.2]
  decide

/-- Counterexample to claim C8 as stated: with two subscribers where the
first throws, only one `receive` is invoked — the later subscriber is not
called, so deliveries are not isolated. -/
theorem c8_isolation_counterexample :
    (emitEvent [true, false]).1 = 1 ∧ [true, false].length = 2 := by
  exact ⟨rfl, rfl⟩

/-! ## Handshake authentication (`Server.ts` upgrade handler and
`AuthService.validateAuth`) -/

/-- Assoc lookup among the `accountId=key` pairs parsed from config. -/
def sLook : List (String × String) → String → Option String
  | [], _ => none
  | (k, v) :: rest, key => if k = key then some v else sLook rest key

/-- Node `Buffer.from(s, 'hex')` digit semantics. -/
def hexDigitVal (c : Char) : Option Nat :=
  if '0' ≤ c ∧ c ≤ '9' then some (c.toNat - '0'.toNat)
  else if 'a' ≤ c ∧ c ≤ 'f' then some (c.toNat - 'a'.toNat + 10)
  else if 'A' ≤ c ∧ c ≤ 'F' then some (c.toNat - 'A'.toNat + 10)
  else none

/-- Node `Buffer.from(s, 'hex')`: consumes hex-digit pairs, truncating at
the first invalid or incomplete pair. -/
def hexDecode : List Char → List Nat
  | c1 :: c2 :: rest =>
    (match hexDigitVal c1, hexDigitVal c2 with
      | some h, some l => (16 * h + l) :: hexDecode rest
      | _, _ => [])
  | _ => []

/-- Hex-decoding of a string. -/
def hexDecodeS (s : String) : List Nat := hexDecode s.data

/-- Lowercase hex digit, as produced by Node's `digest('hex')`. -/
def hexDigitChar (n : Nat) : Char :=
  if n < 10 then Char.ofNat ('0'.toNat + n) else Char.ofNat ('a'.toNat + (n - 10))

/-- Lowercase hex encoding of a byte list (`digest('hex')`). -/
def hexEncode (bs : List Nat) : String :=
  String.mk ((bs.map (fun b => [hexDigitChar (b / 16), hexDigitChar (b % 16)])).join)

/-- `AuthService.getAccountKey`: the `.env` map first (an empty value is
falsy and falls through), then the AccountManager lookup (`none` when the
DB is disabled or errors). -/
def resolveKey (envKeys : List (String × String)) (dbKey : Option String)
    (accountId : String) : Option String :=
  match sLook envKeys accountId with
  | some k => if k.isEmpty then dbKey else some k
  | none => dbKey

/-- `AuthService.validateAuth`, with the HMAC-SHA256 digest of the session
id under the account key supplied as an opaque byte list (the `crypto`
library call is outside the repository).  `timingSafeEqual` compares the
hex-decodings of the supplied token and of the lowercase hex digest; a
buffer length mismatch throws and is caught as an auth failure, so the net
result is byte-list equality. -/
def validateAuth (envKeys : List (String × String)) (dbKey : Option String)
    (accountId : String) (digest : List Nat) (authToken : String) : Bool :=
  match resolveKey envKeys dbKey accountId with
  | none => false
  | some k =>
    if k.isEmpty then false
    else decide (hexDecodeS authToken = hexDecodeS (hexEncode digest))

/-- A query parameter is missing when absent or empty (both falsy). -/
def missingParam : Option String → Bool
  | none => true
  | some s => s.isEmpty

/-- Outcome of the websocket `upgrade` handler. -/
inductive UpgradeResult where
  | resp400
  | resp403
  | upgraded
deriving DecidableEq, Repr

/-- The `upgrade` handler of `Server.ts`: 400 when `rs_accid`,
`rs_u_sessid` or `rs_auth` is missing, 403 when `validateAuth` fails, and
only otherwise is the connection upgraded (the Pipeline is instantiated in
the `open` handler, which fires only for upgraded connections). -/
def upgradeHandler (accid sessid auth : Option String)
    (envKeys : List (String × String)) (dbKey : Option String)
    (digest : List Nat) : UpgradeResult :=
  if missingParam accid || missingParam sessid || missingParam auth then .resp400
  else if !(validateAuth envKeys dbKey (accid.getD "") digest (auth.getD "")) then .resp403
  else .upgraded

lemma hexDigitVal_hexDigitChar : ∀ n < 16, hexDigitVal (hexDigitChar n) = some n := by
  decide

lemma hexDecode_hexEncode (bs : List Nat) (h : ∀ b ∈ bs, b < 256) :
    hexDecodeS (hexEncode bs) = bs := by
  induction bs with
  | nil => rfl
  | cons b rest ih =>
    have hb : b < 256 := h b (List.mem_cons_self _ _)
    have hdata : (hexEncode (b :: rest)).data
        = hexDigitChar (b / 16) :: hexDigitChar (b % 16) :: (hexEncode rest).data := by
      simp [hexEncode]
    unfold hexDecodeS
    rw [hdata]
    show hexDecode (hexDigitChar (b / 16) :: hexDigitChar (b % 16) :: (hexEncode rest).data)
      = b :: rest
    rw [hexDecode]
    rw [hexDigitVal_hexDigitChar (b / 16) (by omega),
      hexDigitVal_hexDigitChar (b % 16) (by omega)]
    have := ih (fun x hx => h x (List.mem_cons_of_mem _ hx))
    unfold hexDecodeS at this
    rw [this]
    show (16 * (b / 16) + b % 16) :: rest = b :: rest
    rw [Nat.div_add_mod]

/-- A usable key resolves for the account: found and non-empty. -/
def keyUsable (envKeys : List (String × String)) (dbKey : Option String)
    (accountId : String) : Bool :=
  match resolveKey envKeys dbKey accountId with
  | none => false
  | some k => !k.isEmpty

lemma validateAuth_iff (envKeys : List (String × String)) (dbKey : Option String)
    (accountId : String) (digest : List Nat) (authToken : String)
    (hb : ∀ b ∈ digest, b < 256) :
    validateAuth envKeys dbKey accountId digest authToken = true
      ↔ (keyUsable envKeys dbKey accountId = true
          ∧ hexDecodeS authToken = digest) := by
  unfold validateAuth keyUsable
  rw [hexDecode_hexEncode digest hb]
  cases hk : resolveKey envKeys dbKey accountId with
  | none => simp
  | some k => by_cases he : k.isEmpty <;> simp [he]

/-- Claim C7 (amended): the handshake responds 400 exactly when one of the
three parameters is missing; otherwise it responds 403 exactly when no
usable key resolves for the account or the hex-decoding of the supplied
token differs from the HMAC digest bytes (so any case-variant of the
correct lowercase hex is accepted — the comparison is on decoded bytes,
not on the hex text); only otherwise is the connection upgraded (and the
Pipeline instantiated). -/
theorem c7_handshake_auth (accid sessid auth : Option String)
    (envKeys : List (String × String)) (dbKey : Option String) (digest : List Nat)
    (hb : ∀ b ∈ digest, b < 256) :
    (upgradeHandler accid sessid auth envKeys dbKey digest = .resp400
      ↔ (missingParam accid || missingParam sessid || missingParam auth) = true)
    ∧ ((missingParam accid || missingParam sessid || missingParam auth) = false →
      (upgradeHandler accid sessid auth envKeys dbKey digest = .resp403
        ↔ (keyUsable envKeys dbKey (accid.getD "") = false
            ∨ hexDecodeS (auth.getD "") ≠ digest)))
    ∧ (upgradeHandler accid sessid auth envKeys dbKey digest = .upgraded
      ↔ ((missingParam accid || missingParam sessid || missingParam auth) = false
          ∧ validateAuth envKeys dbKey (accid.getD "") digest (auth.getD "") = true)) := by
  have hdec := validateAuth_iff envKeys dbKey (accid.getD "") digest (auth.getD "") hb
  unfold upgradeHandler
  by_cases hm : (missingParam accid || missingParam sessid || missingParam auth) = true
  · rw [if_pos hm]
    exact ⟨by simp [hm], by simp [hm], by simp [hm]⟩
  · rw [if_neg hm]
    rw [Bool.not_eq_true] at hm
    by_cases hv : validateAuth envKeys dbKey (accid.getD "") digest (auth.getD "") = true
    · rw [hv]
      simp only [Bool.not_true, Bool.false_eq_true, if_false]
      refine ⟨by simp [hm], ?_, by simp [hm, hv]⟩
      intro _
      rw [hdec] at hv
      constructor
      · intro hc; exact absurd hc (by simp)
      · rintro (h1 | h2)
        · rw [hv.1] at h1; exact absurd h1 (by simp)
        · exact absurd hv.2 h2
    · have hv' : validateAuth envKeys dbKey (accid.getD "") digest (auth.getD "") = false := by
        simpa using hv
      rw [hv']
      simp only [Bool.not_false, if_true]
      refine ⟨by simp [hm], ?_, by simp [hv']⟩
      intro _
      constructor
      · intro _
        by_contra hcon
        push_neg at hcon
        obtain ⟨h1, h2⟩ := hcon
        exact hv (hdec.mpr ⟨by simpa using h1, h2⟩)
      · intro _; trivial

/-- Witness for `c7_handshake_auth`: a correct lowercase token upgrades,
and the 400/403 characterizations hold at concrete inputs. -/
theorem c7_handshake_auth_witness :
    upgradeHandler (some "acc") (some "sess") (some "ab") [("acc", "k")] none [171]
      = .upgraded := by
  have h := (c7_handshake_auth (some "acc") (some "sess") (some "ab")
    [("acc", "k")] none [171] (by decide)).2.2
  rw [h]
  refine ⟨rfl, ?_⟩
  rfl

/-- Counterexample to claim C7 as stated: the uppercase variant `"AB"` of
the correct lowercase hex `"ab"` of the digest `[0xab]` differs from the
lowercase hex HMAC string, yet the handshake accepts it (no 403), because
the comparison decodes both sides to bytes first. -/
theorem c7_uppercase_counterexample :
    upgradeHandler (some "acc") (some "sess") (some "AB") [("acc", "k")] none [171]
      = .upgraded
    ∧ "AB" ≠ hexEncode [171] := by
  refine ⟨rfl, ?_⟩
  intro hc
  have : "AB".data = (hexEncode [171]).data := by rw [hc]
  simp [hexEncode] at this
  rcases this with ⟨h1, -⟩
  revert h1
  decide

/-! ## Pipeline swap (`Pipeline`, src/unnamed/part_024) -/

/-- Per-node subscriber lists (`EventManager.subscribers`), keyed by
component identity. -/
def subsOf : List (Nat × List Nat) → Nat → List Nat
  | [], _ => []
  | (m, l0) :: rest, n => if m = n then l0 else subsOf rest n

/-- `addSubscribers(...)`: appends to the node's subscriber list. -/
def addSub : List (Nat × List Nat) → Nat → List Nat → List (Nat × List Nat)
  | [], n, ts => [(n, ts)]
  | (m, l0) :: rest, n, ts =>
    if m = n then (m, l0 ++ ts) :: rest else (m, l0) :: addSub rest n ts

/-- `EventManager.cleanup()`: drops the node's own subscriber list. -/
def clearSubs : List (Nat × List Nat) → Nat → List (Nat × List Nat)
  | [], _ => []
  | (m, l0) :: rest, n =>
    if m = n then (m, []) :: rest else (m, l0) :: clearSubs rest n

/-- Identity-level state of a `Pipeline`: the component instances are
tracked by allocation ids; `subs` is the bus graph; `cleaned` records the
components whose `cleanup()` ran (for a translator this nulls its
extractor; its `receiveEvent` is then a guarded no-op). -/
structure PipelineSt where
  nextId : Nat
  smId : Nat
  cpId : Nat
  swId : Nat
  sockId : Nat
  pcId : Nat
  stId : Nat
  ctId : Nat
  subs : List (Nat × List Nat)
  cleaned : List Nat
  provider : Prov
deriving Repr

/-- `Pipeline.initPipeline()`: SessionManager → ClientTransformer →
ProviderEventManager → ServerTransformer → [clientSocket, Checkpoint]. -/
def initWiring (st : PipelineSt) : PipelineSt :=
  { st with subs :=
      addSub (addSub (addSub (addSub st.subs st.smId [st.ctId])
        st.ctId [st.pcId]) st.pcId [st.stId]) st.stId [st.sockId, st.cpId] }

/-- The Pipeline constructor: the client socket exists first (id 0), then
SessionManager (1), ProviderConnection (2), ServerTransformer (3),
ClientTransformer (4), Checkpoint (5) and Switch (6) are created, and the
graph is wired. -/
def pipelineInit (p : Prov) : PipelineSt :=
  initWiring
    { nextId := 7, smId := 1, cpId := 5, swId := 6, sockId := 0,
      pcId := 2, stId := 3, ctId := 4, subs := [], cleaned := [], provider := p }

/-- `Pipeline.updateProvider`: cleans up the ProviderConnection (whose
`cleanup` also clears its own subscriber list via `super.cleanup()`), the
ServerTransformer and the ClientTransformer (whose `cleanup` overrides
only release their extractors — they do NOT clear subscriber lists and
nothing removes the bus edges pointing at them); builds replacements with
fresh identities; keeps SessionManager, Checkpoint, Switch and the client
socket; and re-runs `initPipeline`, which APPENDS the new edges. -/
def updateProvider (st : PipelineSt) (newProvider : Prov) : PipelineSt :=
  let st1 : PipelineSt :=
    { st with subs := clearSubs st.subs st.pcId,
              cleaned := st.pcId :: st.stId :: st.ctId :: st.cleaned }
  let st2 : PipelineSt :=
    { st1 with nextId := st.nextId + 3,
               pcId := st.nextId, stId := st.nextId + 1, ctId := st.nextId + 2,
               provider := newProvider }
  initWiring st2

/-- A sequence of swaps. -/
def runSwaps : PipelineSt → List Prov → PipelineSt
  | st, [] => st
  | st, p :: rest => runSwaps (updateProvider st p) rest

/-- A stale client translator's `receiveEvent` extracts only while its
extractor is non-null; after `cleanup` it is a no-op. -/
def translatorReceives (st : PipelineSt) (t : Nat) : Bool :=
  !(decide (t ∈ st.cleaned))

/-- Well-formedness of the identity state: every component id is below the
allocation counter, the long-lived components are distinct from the
swappable three and never cleaned, and everything recorded is bounded. -/
structure PipeWF (st : PipelineSt) : Prop where
  sm_lt : st.smId < st.nextId
  cp_lt : st.cpId < st.nextId
  sw_lt : st.swId < st.nextId
  sock_lt : st.sockId < st.nextId
  pc_lt : st.pcId < st.nextId
  st_lt : st.stId < st.nextId
  ct_lt : st.ctId < st.nextId
  subs_keys_lt : ∀ e ∈ st.subs, e.1 < st.nextId
  cleaned_lt : ∀ x ∈ st.cleaned, x < st.nextId
  sm_clean : st.smId ∉ st.cleaned
  cp_clean : st.cpId ∉ st.cleaned
  sw_clean : st.swId ∉ st.cleaned
  sock_clean : st.sockId ∉ st.cleaned
  sm_pc : st.smId ≠ st.pcId
  sm_st : st.smId ≠ st.stId
  sm_ct : st.smId ≠ st.ctId
  cp_pc : st.cpId ≠ st.pcId
  cp_st : st.cpId ≠ st.stId
  cp_ct : st.cpId ≠ st.ctId
  sw_pc : st.swId ≠ st.pcId
  sw_st : st.swId ≠ st.stId
  sw_ct : st.swId ≠ st.ctId
  sock_pc : st.sockId ≠ st.pcId
  sock_st : st.sockId ≠ st.stId
  sock_ct : st.sockId ≠ st.ctId

lemma subsOf_addSub_same (l : List (Nat × List Nat)) (n : Nat) (ts : List Nat) :
    subsOf (addSub l n ts) n = subsOf l n ++ ts := by
  induction l with
  | nil => simp [addSub, subsOf]
  | cons hd tl ih =>
    by_cases hm : hd.1 = n
    · simp [addSub, subsOf, hm]
    · simpa [addSub, subsOf, hm] using ih

lemma subsOf_addSub_other (l : List (Nat × List Nat)) {n m : Nat} (ts : List Nat)
    (h : m ≠ n) :
    subsOf (addSub l n ts) m = subsOf l m := by
  induction l with
  | nil => simp [addSub, subsOf, Ne.symm h]
  | cons hd tl ih =>
    by_cases hm : hd.1 = n
    · by_cases hm' : hd.1 = m
      · exact absurd (hm'.symm.trans hm) h
      · simp [addSub, subsOf, hm, hm', Ne.symm h]
    · by_cases hm' : hd.1 = m
      · simp [addSub, subsOf, hm, hm', h]
      · simpa [addSub, subsOf, hm, hm'] using ih

lemma subsOf_clearSubs_same (l : List (Nat × List Nat)) (n : Nat) :
    subsOf (clearSubs l n) n = [] := by
  induction l with
  | nil => simp [clearSubs, subsOf]
  | cons hd tl ih =>
    by_cases hm : hd.1 = n
    · simp [clearSubs, subsOf, hm]
    · simpa [clearSubs, subsOf, hm] using ih

lemma subsOf_clearSubs_other (l : List (Nat × List Nat)) {n m : Nat} (h : m ≠ n) :
    subsOf (clearSubs l n) m = subsOf l m := by
  induction l with
  | nil => simp [clearSubs, subsOf]
  | cons hd tl ih =>
    by_cases hm : hd.1 = n
    · by_cases hm' : hd.1 = m
      · exact absurd (hm'.symm.trans hm) h
      · simp [clearSubs, subsOf, hm, hm', Ne.symm h]
    · by_cases hm' : hd.1 = m
      · simp [clearSubs, subsOf, hm, hm', h]
      · simpa [clearSubs, subsOf, hm, hm'] using ih

lemma subsOf_fresh (l : List (Nat × List Nat)) {N n : Nat}
    (hk : ∀ e ∈ l, e.1 < N) (hn : N ≤ n) :
    subsOf l n = [] := by
  induction l with
  | nil => rfl
  | cons hd tl ih =>
    have h1 : hd.1 < N := (hk hd (List.mem_cons_self _ _))
    have : hd.1 ≠ n := by omega
    simp only [subsOf, if_neg this]
    exact ih (fun e he => hk e (List.mem_cons_of_mem _ he))

lemma addSub_keys (l : List (Nat × List Nat)) (n : Nat) (ts : List Nat) :
    ∀ e ∈ addSub l n ts, e.1 = n ∨ e.1 ∈ l.map Prod.fst := by
  induction l with
  | nil =>
    intro e he
    simp only [addSub] at he
    rcases List.mem_cons.mp he with he | he
    · left; rw [he]
    · simp at he
  | cons hd tl ih =>
    intro e he
    by_cases hm : hd.1 = n
    · simp only [addSub, if_pos hm] at he
      rcases List.mem_cons.mp he with he | he
      · left; rw [he]; exact hm
      · right
        simp only [List.map_cons, List.mem_cons]
        right
        exact List.mem_map_of_mem _ he
    · simp only [addSub, if_neg hm] at he
      rcases List.mem_cons.mp he with he | he
      · right; rw [he]; simp
      · rcases ih e he with h | h
        · left; exact h
        · right
          simp only [List.map_cons, List.mem_cons]
          right
          exact h

lemma clearSubs_keys (l : List (Nat × List Nat)) (n : Nat) :
    ∀ e ∈ clearSubs l n, e.1 ∈ l.map Prod.fst := by
  induction l with
  | nil => intro e he; simp [clearSubs] at he
  | cons hd tl ih =>
    intro e he
    by_cases hm : hd.1 = n
    · simp only [clearSubs, if_pos hm] at he
      rcases List.mem_cons.mp he with he | he
      · rw [he]; simp
      · simp only [List.map_cons, List.mem_cons]
        right
        exact List.mem_map_of_mem _ he
    · simp only [clearSubs, if_neg hm] at he
      rcases List.mem_cons.mp he with he | he
      · rw [he]; simp
      · simp only [List.map_cons, List.mem_cons]
        right
        exact ih e he

lemma clearSubs_keys_lt (st : PipelineSt) (hwf : PipeWF st) :
    ∀ e ∈ clearSubs st.subs st.pcId, e.1 < st.nextId := by
  intro e he
  have := clearSubs_keys st.subs st.pcId e he
  obtain ⟨e0, he0, heq⟩ := List.mem_map.mp this
  rw [← heq]
  exact hwf.subs_keys_lt e0 he0

lemma updateProvider_subs (st : PipelineSt) (p : Prov) (hwf : PipeWF st) :
    subsOf (updateProvider st p).subs (st.nextId + 1) = [st.sockId, st.cpId]
    ∧ subsOf (updateProvider st p).subs (st.nextId + 2) = [st.nextId]
    ∧ subsOf (updateProvider st p).subs st.nextId = [st.nextId + 1]
    ∧ subsOf (updateProvider st p).subs st.smId
        = subsOf st.subs st.smId ++ [st.nextId + 2] := by
  have hC := clearSubs_keys_lt st hwf
  have hsubs : (updateProvider st p).subs
      = addSub (addSub (addSub (addSub (clearSubs st.subs st.pcId)
          st.smId [st.nextId + 2]) (st.nextId + 2) [st.nextId])
          st.nextId [st.nextId + 1]) (st.nextId + 1) [st.sockId, st.cpId] := rfl
  have hsm := hwf.sm_lt
  refine ⟨?_, ?_, ?_, ?_⟩
  · rw [hsubs, subsOf_addSub_same,
      subsOf_addSub_other _ _ (by omega),
      subsOf_addSub_other _ _ (by omega),
      subsOf_addSub_other _ _ (by omega),
      subsOf_fresh _ hC (by omega)]
    rfl
  · rw [hsubs, subsOf_addSub_other _ _ (by omega),
      subsOf_addSub_other _ _ (by omega),
      subsOf_addSub_same,
      subsOf_addSub_other _ _ (by omega),
      subsOf_fresh _ hC (by omega)]
    rfl
  · rw [hsubs, subsOf_addSub_other _ _ (by omega),
      subsOf_addSub_same,
      subsOf_addSub_other _ _ (by omega),
      subsOf_addSub_other _ _ (by omega),
      subsOf_fresh _ hC (by omega)]
    rfl
  · rw [hsubs, subsOf_addSub_other _ _ (by omega),
      subsOf_addSub_other _ _ (by omega),
      subsOf_addSub_other _ _ (by omega),
      subsOf_addSub_same,
      subsOf_clearSubs_other _ hwf.sm_pc]

lemma updateProvider_fields (st : PipelineSt) (p : Prov) :
    (updateProvider st p).smId = st.smId
    ∧ (updateProvider st p).cpId = st.cpId
    ∧ (updateProvider st p).swId = st.swId
    ∧ (updateProvider st p).sockId = st.sockId
    ∧ (updateProvider st p).pcId = st.nextId
    ∧ (updateProvider st p).stId = st.nextId + 1
    ∧ (updateProvider st p).ctId = st.nextId + 2
    ∧ (updateProvider st p).nextId = st.nextId + 3
    ∧ (updateProvider st p).cleaned = st.pcId :: st.stId :: st.ctId :: st.cleaned
    ∧ (updateProvider st p).provider = p :=
  ⟨rfl, rfl, rfl, rfl, rfl, rfl, rfl, rfl, rfl, rfl⟩

lemma pipeWF_update (st : PipelineSt) (p : Prov) (hwf : PipeWF st) :
    PipeWF (updateProvider st p) := by
  obtain ⟨h1, h2, h3, h4, h5, h6, h7, h8, h9, h10⟩ := updateProvider_fields st p
  have hkeys : ∀ e ∈ (updateProvider st p).subs, e.1 < (updateProvider st p).nextId := by
    intro e he
    have hC := clearSubs_keys_lt st hwf
    rw [h8]
    have hmem : e.1 = st.nextId + 1 ∨ e.1 = st.nextId ∨ e.1 = st.nextId + 2
        ∨ e.1 = st.smId ∨ e.1 ∈ (clearSubs st.subs st.pcId).map Prod.fst := by
      have s1 := addSub_keys _ (st.nextId + 1) [st.sockId, st.cpId] e he
      rcases s1 with h | h
      · exact Or.inl h
      · obtain ⟨e1, he1, heq1⟩ := List.mem_map.mp h
        have s2 := addSub_keys _ st.nextId [st.nextId + 1] e1 he1
        rcases s2 with h' | h'
        · exact Or.inr (Or.inl (heq1 ▸ h'))
        · obtain ⟨e2, he2, heq2⟩ := List.mem_map.mp h'
          have s3 := addSub_keys _ (st.nextId + 2) [st.nextId] e2 he2
          rcases s3 with h'' | h''
          · exact Or.inr (Or.inr (Or.inl (heq1 ▸ heq2 ▸ h'')))
          · obtain ⟨e3, he3, heq3⟩ := List.mem_map.mp h''
            have s4 := addSub_keys _ st.smId [st.nextId + 2] e3 he3
            rcases s4 with h3' | h3'
            · exact Or.inr (Or.inr (Or.inr (Or.inl (heq1 ▸ heq2 ▸ heq3 ▸ h3'))))
            · refine Or.inr (Or.inr (Or.inr (Or.inr ?_)))
              rw [← heq1, ← heq2, ← heq3]
              exact h3'
    have hsm := hwf.sm_lt
    rcases hmem with h | h | h | h | h
    · omega
    · omega
    · omega
    · omega
    · obtain ⟨e0, he0, heq⟩ := List.mem_map.mp h
      have := clearSubs_keys_lt st hwf e0 he0
      omega
  have hclean : ∀ x ∈ (updateProvider st p).cleaned, x < (updateProvider st p).nextId := by
    intro x hx
    rw [h9] at hx
    rw [h8]
    have hpc := hwf.pc_lt
    have hst := hwf.st_lt
    have hct := hwf.ct_lt
    rcases List.mem_cons.mp hx with h | hx
    · omega
    rcases List.mem_cons.mp hx with h | hx
    · omega
    rcases List.mem_cons.mp hx with h | hx
    · omega
    have := hwf.cleaned_lt x hx
    omega
  have hnotin : ∀ y, y ∉ st.cleaned → y ≠ st.pcId → y ≠ st.stId → y ≠ st.ctId →
      y ∉ (updateProvider st p).cleaned := by
    intro y hy hne1 hne2 hne3 hc
    rw [h9] at hc
    rcases List.mem_cons.mp hc with h | hc
    · exact hne1 h
    rcases List.mem_cons.mp hc with h | hc
    · exact hne2 h
    rcases List.mem_cons.mp hc with h | hc
    · exact hne3 h
    exact hy hc
  have hsml := hwf.sm_lt
  have hcpl := hwf.cp_lt
  have hswl := hwf.sw_lt
  have hsockl := hwf.sock_lt
  exact {
    sm_lt := by rw [h1, h8]; omega
    cp_lt := by rw [h2, h8]; omega
    sw_lt := by rw [h3, h8]; omega
    sock_lt := by rw [h4, h8]; omega
    pc_lt := by rw [h5, h8]; omega
    st_lt := by rw [h6, h8]; omega
    ct_lt := by rw [h7, h8]; omega
    subs_keys_lt := hkeys
    cleaned_lt := hclean
    sm_clean := by
      rw [h1]; exact hnotin _ hwf.sm_clean hwf.sm_pc hwf.sm_st hwf.sm_ct
    cp_clean := by
      rw [h2]; exact hnotin _ hwf.cp_clean hwf.cp_pc hwf.cp_st hwf.cp_ct
    sw_clean := by
      rw [h3]; exact hnotin _ hwf.sw_clean hwf.sw_pc hwf.sw_st hwf.sw_ct
    sock_clean := by
      rw [h4]; exact hnotin _ hwf.sock_clean hwf.sock_pc hwf.sock_st hwf.sock_ct
    sm_pc := by rw [h1, h5]; omega
    sm_st := by rw [h1, h6]; omega
    sm_ct := by rw [h1, h7]; omega
    cp_pc := by rw [h2, h5]; omega
    cp_st := by rw [h2, h6]; omega
    cp_ct := by rw [h2, h7]; omega
    sw_pc := by rw [h3, h5]; omega
    sw_st := by rw [h3, h6]; omega
    sw_ct := by rw [h3, h7]; omega
    sock_pc := by rw [h4, h5]; omega
    sock_st := by rw [h4, h6]; omega
    sock_ct := by rw [h4, h7]; omega }

lemma pipeWF_init (p : Prov) : PipeWF (pipelineInit p) := by
  cases p <;>
    (refine ⟨?_, ?_, ?_, ?_, ?_, ?_, ?_, ?_, ?_, ?_, ?_, ?_, ?_, ?_, ?_, ?_, ?_, ?_,
      ?_, ?_, ?_, ?_, ?_, ?_, ?_⟩ <;> decide)

/-- Claim C9: a swap keeps the ConfigStore (SessionManager), Checkpointer,
Switch and downstream client socket as the identical, never-cleaned
instances; it replaces the ProviderConnection, ClientTranslator and
ServerTranslator with fresh instances; the new ServerTranslator is
subscribed to by the downstream socket and the Checkpointer, and the
ConfigStore is wired to the new ClientTranslator (the new edges are
appended to the ConfigStore's subscriber list). -/
theorem c9_swap_frame (st : PipelineSt) (p : Prov) (hwf : PipeWF st) :
    ((updateProvider st p).smId = st.smId
      ∧ (updateProvider st p).cpId = st.cpId
      ∧ (updateProvider st p).swId = st.swId
      ∧ (updateProvider st p).sockId = st.sockId)
    ∧ (st.smId ∉ (updateProvider st p).cleaned
      ∧ st.cpId ∉ (updateProvider st p).cleaned
      ∧ st.swId ∉ (updateProvider st p).cleaned
      ∧ st.sockId ∉ (updateProvider st p).cleaned)
    ∧ ((updateProvider st p).pcId ≠ st.pcId
      ∧ (updateProvider st p).stId ≠ st.stId
      ∧ (updateProvider st p).ctId ≠ st.ctId
      ∧ st.pcId ∈ (updateProvider st p).cleaned
      ∧ st.stId ∈ (updateProvider st p).cleaned
      ∧ st.ctId ∈ (updateProvider st p).cleaned)
    ∧ (subsOf (updateProvider st p).subs (updateProvider st p).stId
        = [st.sockId, st.cpId]
      ∧ subsOf (updateProvider st p).subs (updateProvider st p).ctId
        = [(updateProvider st p).pcId]
      ∧ subsOf (updateProvider st p).subs (updateProvider st p).pcId
        = [(updateProvider st p).stId]
      ∧ subsOf (updateProvider st p).subs st.smId
        = subsOf st.subs st.smId ++ [(updateProvider st p).ctId])
    ∧ (updateProvider st p).provider = p := by
  obtain ⟨h1, h2, h3, h4, h5, h6, h7, h8, h9, h10⟩ := updateProvider_fields st p
  obtain ⟨w1, w2, w3, w4⟩ := updateProvider_subs st p hwf
  have hwf' := pipeWF_update st p hwf
  refine ⟨⟨h1, h2, h3, h4⟩, ?_, ?_, ?_, h10⟩
  · exact ⟨h1 ▸ hwf'.sm_clean, h2 ▸ hwf'.cp_clean, h3 ▸ hwf'.sw_clean,
      h4 ▸ hwf'.sock_clean⟩
  · have hpc := hwf.pc_lt
    have hst := hwf.st_lt
    have hct := hwf.ct_lt
    refine ⟨by rw [h5]; omega, by rw [h6]; omega, by rw [h7]; omega, ?_, ?_, ?_⟩
    · rw [h9]; exact List.mem_cons_self _ _
    · rw [h9]; exact List.mem_cons_of_mem _ (List.mem_cons_self _ _)
    · rw [h9]
      exact List.mem_cons_of_mem _ (List.mem_cons_of_mem _ (List.mem_cons_self _ _))
  · rw [h5, h6, h7]
    exact ⟨w1, w2, w3, w4⟩

/-- Witness for `c9_swap_frame` on the freshly constructed pipeline. -/
theorem c9_swap_frame_witness :
    ((updateProvider (pipelineInit .openai) .gemini).smId = (pipelineInit .openai).smId)
    ∧ subsOf (updateProvider (pipelineInit .openai) .gemini).subs
        (pipelineInit .openai).smId
      = subsOf (pipelineInit .openai).subs (pipelineInit .openai).smId
        ++ [(updateProvider (pipelineInit .openai) .gemini).ctId] := by
  have h := c9_swap_frame (pipelineInit .openai) .gemini (pipeWF_init .openai)
  exact ⟨h.1.1, h.2.2.2.1.2.2.2⟩

/-- Reachability invariant behind claim C10: the ConfigStore's subscriber
list is the full history of client translators — `n + 1` distinct entries
after `n` swaps, ending with the live one; all earlier ones are cleaned
(extractor nulled) but still subscribed. -/
structure GoodSt (st : PipelineSt) (n : Nat) : Prop where
  wf : PipeWF st
  len : (subsOf st.subs st.smId).length = n + 1
  last : (subsOf st.subs st.smId).getLast? = some st.ctId
  stale : ∀ t ∈ subsOf st.subs st.smId, t ≠ st.ctId → t ∈ st.cleaned
  live : st.ctId ∉ st.cleaned
  bounded : ∀ t ∈ subsOf st.subs st.smId, t < st.nextId
  nodup : (subsOf st.subs st.smId).Nodup

lemma goodSt_init (p : Prov) : GoodSt (pipelineInit p) 0 := by
  refine ⟨pipeWF_init p, ?_, ?_, ?_, ?_, ?_, ?_⟩ <;> cases p <;> decide

lemma goodSt_step (st : PipelineSt) (p : Prov) (n : Nat) (hg : GoodSt st n) :
    GoodSt (updateProvider st p) (n + 1) := by
  obtain ⟨h1, h2, h3, h4, h5, h6, h7, h8, h9, h10⟩ := updateProvider_fields st p
  have hsub := (updateProvider_subs st p hg.wf).2.2.2
  refine ⟨pipeWF_update st p hg.wf, ?_, ?_, ?_, ?_, ?_, ?_⟩
  · rw [h1, hsub, List.length_append, hg.len]
    simp
  · rw [h1, hsub, h7, List.getLast?_concat]
  · rw [h1]
    intro t ht hne
    rw [hsub] at ht
    rw [h7] at hne
    rw [h9]
    rcases List.mem_append.mp ht with h | h
    · by_cases hct : t = st.ctId
      · rw [hct]
        exact List.mem_cons_of_mem _ (List.mem_cons_of_mem _ (List.mem_cons_self _ _))
      · exact List.mem_cons_of_mem _ (List.mem_cons_of_mem _
          (List.mem_cons_of_mem _ (hg.stale t h hct)))
    · simp at h
      exact absurd h hne
  · rw [h7, h9]
    intro hc
    have hpc := hg.wf.pc_lt
    have hst := hg.wf.st_lt
    have hct := hg.wf.ct_lt
    rcases List.mem_cons.mp hc with h | hc
    · omega
    rcases List.mem_cons.mp hc with h | hc
    · omega
    rcases List.mem_cons.mp hc with h | hc
    · omega
    have := hg.wf.cleaned_lt _ hc
    omega
  · rw [h1]
    intro t ht
    rw [hsub] at ht
    rw [h8]
    rcases List.mem_append.mp ht with h | h
    · have := hg.bounded t h
      omega
    · simp at h
      omega
  · rw [h1, hsub]
    rw [List.nodup_append]
    refine ⟨hg.nodup, List.nodup_singleton _, ?_⟩
    intro a ha hb
    simp only [List.mem_singleton] at hb
    have := hg.bounded a ha
    omega

lemma goodSt_run (ps : List Prov) :
    ∀ (st : PipelineSt) (n : Nat), GoodSt st n → GoodSt (runSwaps st ps) (n + ps.length) := by
  induction ps with
  | nil => intro st n hg; simpa using hg
  | cons p rest ih =>
    intro st n hg
    have h := ih (updateProvider st p) (n + 1) (goodSt_step st p n hg)
    have heq : n + 1 + rest.length = n + (p :: rest).length := by
      simp [List.length_cons]
      omega
    rw [← heq]
    exact h

/-- Claim C10: after `n` swaps the ConfigStore (SessionManager) has `n + 1`
distinct subscribed client translators — defunct translators are never
removed from its subscriber list (translator cleanup only releases
extractor callbacks; rewiring appends the new translator) — the live one
is last, and every client event is still delivered to each defunct
translator's `receiveEvent`, which is a no-op because its extractor is
null. -/
theorem c10_stale_subscribers (p0 : Prov) (ps : List Prov) :
    (subsOf (runSwaps (pipelineInit p0) ps).subs
        (runSwaps (pipelineInit p0) ps).smId).length = ps.length + 1
    ∧ (subsOf (runSwaps (pipelineInit p0) ps).subs
        (runSwaps (pipelineInit p0) ps).smId).getLast?
      = some (runSwaps (pipelineInit p0) ps).ctId
    ∧ (∀ t ∈ subsOf (runSwaps (pipelineInit p0) ps).subs
          (runSwaps (pipelineInit p0) ps).smId,
        t ≠ (runSwaps (pipelineInit p0) ps).ctId →
        t ∈ (runSwaps (pipelineInit p0) ps).cleaned
        ∧ translatorReceives (runSwaps (pipelineInit p0) ps) t = false)
    ∧ (runSwaps (pipelineInit p0) ps).ctId ∉ (runSwaps (pipelineInit p0) ps).cleaned
    ∧ (subsOf (runSwaps (pipelineInit p0) ps).subs
        (runSwaps (pipelineInit p0) ps).smId).Nodup := by
  have hg := goodSt_run ps (pipelineInit p0) 0 (goodSt_init p0)
  refine ⟨by rw [hg.len]; simp, hg.last, ?_, hg.live, hg.nodup⟩
  intro t ht hne
  refine ⟨hg.stale t ht hne, ?_⟩
  simp [translatorReceives, hg.stale t ht hne]

/-- Witness for `c10_stale_subscribers`: after one swap the ConfigStore
has two subscribed translators; the first (id 4) is cleaned and its
receive is a no-op. -/
theorem c10_stale_subscribers_witness :
    subsOf (runSwaps (pipelineInit .openai) [.gemini]).subs
        (runSwaps (pipelineInit .openai) [.gemini]).smId = [4, 9]
    ∧ (4 ∈ (runSwaps (pipelineInit .openai) [.gemini]).cleaned
      ∧ translatorReceives (runSwaps (pipelineInit .openai) [.gemini]) 4 = false) := by
  refine ⟨by decide, ?_⟩
  exact (c10_stale_subscribers .openai [.gemini]).2.2.1 4 (by decide) (by decide)

/-! ## Cross-style translators and round-trip (claim C4)

The two server transformers
(`ServerOAIGeminiTransformer`/`ServerGeminiOAITransformer`), the two
client transformers
(`ClientOAIGeminiTransformer`/`ClientGeminiOAITransformer`), the four
extractors they dispatch through, and the tool-schema utilities.  Each
transformer is modelled as a function from an input payload to the list
of payloads it emits. -/

/-- The two brace characters, named to keep them out of string
literals. -/
def lbChar : Char := Char.ofNat 123

def rbChar : Char := Char.ofNat 125

def lbStr : String := String.singleton lbChar

def rbStr : String := String.singleton rbChar

/-- String escaping used by `JSON.stringify` (quotes and backslashes; the
model does not emit control characters). -/
def jescape (s : String) : String :=
  String.mk (s.data.foldr (fun c acc =>
    if c = '"' ∨ c = '\\' then '\\' :: c :: acc else c :: acc) [])

mutual
/-- `JSON.stringify` over the payload model. -/
def jser : JVal → String
  | .str s => "\"" ++ jescape s ++ "\""
  | .num n => toString n
  | .flt m e => toString m ++ "e-" ++ toString e
  | .bool true => "true"
  | .bool false => "false"
  | .null => "null"
  | .arr l => "[" ++ jserList l ++ "]"
  | .obj fs => lbStr ++ jserFields fs ++ rbStr

def jserList : List JVal → String
  | [] => ""
  | [x] => jser x
  | x :: y :: rest => jser x ++ "," ++ jserList (y :: rest)

def jserFields : List (String × JVal) → String
  | [] => ""
  | [(k, v)] => "\"" ++ jescape k ++ "\":" ++ jser v
  | (k, v) :: y :: rest => "\"" ++ jescape k ++ "\":" ++ jser v ++ "," ++ jserFields (y :: rest)
end

/-- Parses a run of decimal digits (at least one). -/
def takeDigits : List Char → Nat → Nat × List Char
  | [], acc => (acc, [])
  | c :: rest, acc =>
    if c.isDigit then takeDigits rest (acc * 10 + (c.toNat - 48)) else (acc, c :: rest)

def jparseNat : List Char → Option (Nat × List Char)
  | [] => none
  | c :: rest => if c.isDigit then some (takeDigits (c :: rest) 0) else none

/-- Parses the remainder of a string literal (the opening quote already
consumed). -/
def jparseStr : Nat → List Char → Option (String × List Char)
  | 0, _ => none
  | _ + 1, [] => none
  | f + 1, c :: rest =>
    if c = '"' then some ("", rest)
    else if c = '\\' then
      match rest with
      | c2 :: rest2 => (jparseStr f rest2).map (fun p => (String.singleton c2 ++ p.1, p.2))
      | [] => none
    else (jparseStr f rest).map (fun p => (String.singleton c ++ p.1, p.2))

mutual
/-- A fuel-based model of `JSON.parse` (no whitespace skipping; our
stringifier emits none). -/
def jparseVal : Nat → List Char → Option (JVal × List Char)
  | 0, _ => none
  | f + 1, cs =>
    match cs with
    | 'n' :: 'u' :: 'l' :: 'l' :: rest => some (.null, rest)
    | 't' :: 'r' :: 'u' :: 'e' :: rest => some (.bool true, rest)
    | 'f' :: 'a' :: 'l' :: 's' :: 'e' :: rest => some (.bool false, rest)
    | '"' :: rest => (jparseStr f rest).map (fun p => (.str p.1, p.2))
    | '[' :: rest =>
      (match rest with
       | ']' :: rest2 => some (.arr [], rest2)
       | _ => (jparseItems f rest).map (fun p => (.arr p.1, p.2)))
    | '-' :: rest => (jparseNat rest).map (fun p => (.num (-(p.1 : Int)), p.2))
    | c :: rest =>
      if c = lbChar then
        match rest with
        | r :: rest2 =>
          if r = rbChar then some (.obj [], rest2)
          else (jparseFields f (r :: rest2)).map (fun p => (.obj p.1, p.2))
        | [] => none
      else if c.isDigit then (jparseNat (c :: rest)).map (fun p => (.num (p.1 : Int), p.2))
      else none
    | [] => none

def jparseItems : Nat → List Char → Option (List JVal × List Char)
  | 0, _ => none
  | f + 1, cs =>
    match jparseVal f cs with
    | some (v, rest) =>
      (match rest with
       | ',' :: rest2 => (jparseItems f rest2).map (fun p => (v :: p.1, p.2))
       | ']' :: rest2 => some ([v], rest2)
       | _ => none)
    | none => none

def jparseFields : Nat → List Char → Option (List (String × JVal) × List Char)
  | 0, _ => none
  | f + 1, cs =>
    match cs with
    | '"' :: rest =>
      (match jparseStr f rest with
       | some (k, ':' :: rest2) =>
         (match jparseVal f rest2 with
          | some (v, rest3) =>
            (match rest3 with
             | ',' :: rest4 => (jparseFields f rest4).map (fun p => ((k, v) :: p.1, p.2))
             | r :: rest4 => if r = rbChar then some ([(k, v)], rest4) else none
             | [] => none)
          | none => none)
       | _ => none)
    | _ => none
end

/-- `JSON.parse` of a string, requiring full consumption. -/
def jparse (s : String) : Option JVal :=
  match jparseVal (2 * s.data.length + 8) s.data with
  | some (v, []) => some v
  | _ => none

/-- `JSON.parse` applied to a payload value: strings are parsed, numbers
and booleans re-parse to themselves (JS coerces the argument to a
string), everything else throws. -/
def jparseV : JVal → Option JVal
  | .str s => jparse s
  | .num n => some (.num n)
  | .flt m e => some (.flt m e)
  | .bool b => some (.bool b)
  | _ => none

mutual
/-- `convertTypesToUppercase` (ToolTransformUtils): recursively uppercases
every string-valued `type` field. -/
def upTypes : JVal → JVal
  | .arr l => .arr (upTypesList l)
  | .obj fs => .obj (upTypesFields fs)
  | v => v

def upTypesList : List JVal → List JVal
  | [] => []
  | x :: rest => upTypes x :: upTypesList rest

def upTypesFields : List (String × JVal) → List (String × JVal)
  | [] => []
  | (k, v) :: rest =>
    (k, if k = "type" then (match v with | .str s => .str s.toUpper | _ => upTypes v)
        else upTypes v) :: upTypesFields rest
end

mutual
/-- `convertTypesToLowercase`. -/
def downTypes : JVal → JVal
  | .arr l => .arr (downTypesList l)
  | .obj fs => .obj (downTypesFields fs)
  | v => v

def downTypesList : List JVal → List JVal
  | [] => []
  | x :: rest => downTypes x :: downTypesList rest

def downTypesFields : List (String × JVal) → List (String × JVal)
  | [] => []
  | (k, v) :: rest =>
    (k, if k = "type" then (match v with | .str s => .str s.toLower | _ => downTypes v)
        else downTypes v) :: downTypesFields rest
end

/-- `transformOAIToolsToGemini`: wraps the tool list in one
`functionDeclarations` group, uppercasing schema types.  (A truthy
non-array input would throw in JS; no tools result here.) -/
def transformOAIToolsToGemini (v : JVal) : List JVal :=
  match v with
  | .arr tools =>
    if tools.length = 0 then []
    else [.obj [("functionDeclarations", .arr (tools.map (fun tool =>
      .obj [("name", jGetD (some tool) "name"),
            ("description", jGetD (some tool) "description"),
            ("parameters", upTypes (jGetD (some tool) "parameters"))])))]]
  | _ => []

/-- `transformGeminiToolsToOAI`: flattens every group's
`functionDeclarations`, lowercasing schema types. -/
def transformGeminiToolsToOAI (v : JVal) : List JVal :=
  match v with
  | .arr groups =>
    if groups.length = 0 then []
    else (groups.map (fun g =>
      match g.get? "functionDeclarations" with
      | some (.arr fl) => fl.map (fun f =>
          JVal.obj [("type", .str "function"),
            ("name", jGetD (some f) "name"),
            ("description", jGetD (some f) "description"),
            ("parameters", downTypes (jGetD (some f) "parameters"))])
      | _ => [])).flatten
  | _ => []

/-- The semantic buckets of a server-side extractor. -/
inductive SBucket where
  | userTranscript
  | responseTranscript
  | responseAudio
  | toolCall
  | turnBoundary
deriving DecidableEq, Repr

/-- The semantic buckets of a client-side extractor. -/
inductive CBucket where
  | userAudio
  | sessionUpdate
  | toolResponse
deriving DecidableEq, Repr

/-- `v === "s"` for a possibly-undefined value. -/
def isStrEq (v : Option JVal) (s : String) : Bool :=
  match v with
  | some (.str x) => x = s
  | _ => false

/-- `OAIServerEventsExtractor.extract` (src/implementations/extractors):
dispatch on `payload.type`, with all five callbacks registered. -/
def oaiServerClassify (p : JVal) : Option SBucket :=
  match p.get? "type" with
  | some (.str t) =>
    if t = "conversation.item.input_audio_transcription.delta" then some .userTranscript
    else if t = "response.audio_transcript.delta" then some .responseTranscript
    else if t = "response.audio.delta" then some .responseAudio
    else if t = "response.output_item.done" then
      (if isStrEq (jget (p.get? "item") "type") "function_call" then some .toolCall else none)
    else if t = "response.done" then some .turnBoundary
    else none
  | _ => none

/-- `GeminiServerEventsExtractor.extract` (src/unnamed/part_015): marker
sub-objects under `serverContent`, falling through to `toolCall`;
`turnComplete` and `setupComplete` markers are dropped. -/
def gemServerClassify (p : JVal) : Option SBucket :=
  if !jTruthyV p then none
  else if jTruthy (p.get? "setupComplete") then none
  else if jTruthy (p.get? "serverContent") then
    let sc := p.get? "serverContent"
    if jTruthy (jget sc "inputTranscription") then some .userTranscript
    else if jTruthy (jget sc "modelTurn") then some .responseAudio
    else if jTruthy (jget sc "outputTranscription") then some .responseTranscript
    else if jTruthy (jget sc "generationComplete") || jTruthy (jget sc "interrupted") then
      some .turnBoundary
    else if jTruthy (jget sc "turnComplete") then none
    else if jTruthy (p.get? "toolCall") then some .toolCall
    else none
  else if jTruthy (p.get? "toolCall") then some .toolCall
  else none

/-- `OAIClientEventsExtractor.extract` (src/unnamed/part_014). -/
def oaiClientClassify (p : JVal) : Option CBucket :=
  if isStrEq (p.get? "type") "input_audio_buffer.append" then some .userAudio
  else if isStrEq (p.get? "type") "session.update" then some .sessionUpdate
  else if isStrEq (p.get? "type") "conversation.item.create"
      && isStrEq (jget (p.get? "item") "type") "function_call_output" then some .toolResponse
  else none

/-- `GeminiClientEventsExtractor.extract`
(src/implementations/extractors). -/
def gemClientClassify (p : JVal) : Option CBucket :=
  if jTruthy (p.get? "realtimeInput") then some .userAudio
  else if jTruthy (p.get? "setup") then some .sessionUpdate
  else if jTruthy (p.get? "toolResponse") then some .toolResponse
  else none

/-- `ServerOAIGeminiTransformer` (style-A server events reshaped to
style B), as a function of the tracked `userConvId` (`uc`) and the input
payload; dispatch is `extract` on the OAI server extractor, each method
re-reads its fields and emits zero or more payloads. -/
def serverOaiToGem (uc : Option JVal) (p : JVal) : List JVal :=
  match oaiServerClassify p with
  | some .userTranscript =>
    let delta := p.get? "delta"
    if jTruthy delta then
      [.obj [("serverContent", .obj [
        ("inputTranscription", .obj [("text", delta.getD .null)]),
        ("convId", jsOr (p.get? "item_id") uc)])]]
    else []
  | some .responseTranscript =>
    let delta := p.get? "delta"
    if jTruthy delta then
      [.obj [("serverContent", .obj [
        ("outputTranscription", .obj [("text", delta.getD .null)])])]]
    else []
  | some .responseAudio =>
    let delta := p.get? "delta"
    if jTruthy delta then
      [.obj [("serverContent", .obj [("modelTurn", .obj [("parts", .arr [
        .obj [("inlineData", .obj [("data", delta.getD .null)])]])])])]]
    else []
  | some .toolCall =>
    let item := p.get? "item"
    let argstr := jget item "arguments"
    (match (if jTruthy argstr then jparseV (argstr.getD .null) else some (.obj [])) with
     | some args =>
       [.obj [("toolCall", .obj [("functionCalls", .arr [.obj [
         ("id", jGetD item "call_id"), ("name", jGetD item "name"), ("args", args)]])])]]
     | none => [])
  | some .turnBoundary =>
    let isInterrupted := isStrEq (jget (p.get? "response") "status") "cancelled"
    (if isInterrupted then
      [JVal.obj [("serverContent", .obj [("interrupted", .bool true)])]]
     else
      [JVal.obj [("serverContent", .obj [("generationComplete", .bool true)])]])
    ++ [.obj [("serverContent", .obj [("turnComplete", .bool true),
        ("prevConvId", uc.getD .null)])]]
  | none => []

/-- `ServerGeminiOAITransformer` (style-B server events reshaped to
style A). -/
def serverGemToOai (p : JVal) : List JVal :=
  match gemServerClassify p with
  | some .userTranscript =>
    let t := jget (jget (p.get? "serverContent") "inputTranscription") "text"
    if jTruthy t then
      [.obj [("type", .str "conversation.item.input_audio_transcription.delta"),
        ("content_index", .num 0), ("delta", t.getD .null)]]
    else []
  | some .responseTranscript =>
    let t := jget (jget (p.get? "serverContent") "outputTranscription") "text"
    if jTruthy t then
      [.obj [("type", .str "response.audio_transcript.delta"),
        ("output_index", .num 0), ("content_index", .num 0), ("delta", t.getD .null)]]
    else []
  | some .responseAudio =>
    let mt := jget (p.get? "serverContent") "modelTurn"
    if jTruthy (jget mt "parts") then
      match jget mt "parts" with
      | some (.arr parts) =>
        parts.filterMap (fun part =>
          if jTruthy (jget (part.get? "inlineData") "data") then
            some (JVal.obj [("type", .str "response.audio.delta"),
              ("output_index", .num 0), ("content_index", .num 0),
              ("delta", jGetD (part.get? "inlineData") "data")])
          else none)
      | _ => []
    else []
  | some .toolCall =>
    (match jget (p.get? "toolCall") "functionCalls" with
     | some (.arr fcs) =>
       fcs.map (fun fc =>
         JVal.obj [("type", .str "response.output_item.done"), ("output_index", .num 0),
           ("item", .obj [
             ("id", .str ("item_" ++ jCoerceStr (jGetD (some fc) "id"))),
             ("object", .str "realtime.item"), ("type", .str "function_call"),
             ("status", .str "completed"),
             ("name", jGetD (some fc) "name"),
             ("call_id", jGetD (some fc) "id"),
             ("arguments", .str (jser (if jTruthy (fc.get? "args")
               then (fc.get? "args").getD .null else .obj [])))])])
     | _ => [])
  | some .turnBoundary =>
    let isInterrupted := jTruthy (jget (p.get? "serverContent") "interrupted")
    [.obj [("type", .str "response.done"),
      ("response", .obj [("object", .str "realtime.response"),
        ("status", .str (if isInterrupted then "cancelled" else "completed")),
        ("status_details", if isInterrupted then
            .obj [("type", .str "cancelled"), ("reason", .str "turn_detected")]
          else .null),
        ("output", .arr []), ("modalities", .arr [.str "text", .str "audio"]),
        ("output_audio_format", .str "pcm16"),
        ("temperature", .flt 8 1),
        ("max_output_tokens", .str "inf"),
        ("usage", .null), ("metadata", .null)])]]
  | none => []

/-- `ClientOAIGeminiTransformer` (style-A client events reshaped to
style B). -/
def clientOaiToGem (p : JVal) : List JVal :=
  match oaiClientClassify p with
  | some .userAudio =>
    [.obj [("realtimeInput", .obj [("audio", .obj [
      ("data", jGetD (some p) "audio"),
      ("mimeType", .str "audio/pcm;rate=24000")])])]]
  | some .sessionUpdate =>
    let s := p.get? "session"
    let instructions := if jTruthy (jget s "instructions")
      then (jget s "instructions").getD .null else .str ""
    let gtools := if jTruthy (jget s "tools")
      then some (transformOAIToolsToGemini ((jget s "tools").getD .null)) else none
    let base := [("model", JVal.str "models/gemini-2.0-flash-live-001"),
      ("generationConfig", .obj [("responseModalities", .arr [.str "AUDIO"])]),
      ("outputAudioTranscription", .obj []), ("inputAudioTranscription", .obj []),
      ("systemInstruction", .obj [("parts", .arr [.obj [("text", instructions)]])])]
    let setup := JVal.obj (base ++ (match gtools with
      | some ts => if ts.length > 0 then [("tools", JVal.arr ts)] else []
      | none => []))
    [.obj [("setup", setup)]]
  | some .toolResponse =>
    let item := p.get? "item"
    if isStrEq (jget item "type") "function_call_output" then
      let out := jget item "output"
      let response := if jTruthy out then (jparseV (out.getD .null)).getD (.obj [])
        else .obj []
      [.obj [("toolResponse", .obj [("functionResponses", .arr [.obj [
        ("id", jGetD item "call_id"), ("name", .str ""), ("response", response)]])])]]
    else []
  | none => []

/-- `ClientGeminiOAITransformer` (style-B client events reshaped to
style A). -/
def clientGemToOai (p : JVal) : List JVal :=
  match gemClientClassify p with
  | some .userAudio =>
    let d1 := jget (jget (p.get? "realtimeInput") "audio") "data"
    if jTruthy d1 then
      [.obj [("type", .str "input_audio_buffer.append"), ("audio", d1.getD .null)]]
    else
      let d2 := jget (p.get? "audio") "data"
      if jTruthy d2 then
        [.obj [("type", .str "input_audio_buffer.append"), ("audio", d2.getD .null)]]
      else []
  | some .sessionUpdate =>
    let setup := p.get? "setup"
    let parts := jget (jget setup "systemInstruction") "parts"
    let textParts := match parts with
      | some (.arr l) =>
        (l.filter (fun (part : JVal) => jTruthy (part.get? "text"))).map
          (fun (part : JVal) => jGetD (some part) "text")
      | _ => []
    let instructions := if textParts.length > 0
      then String.intercalate " " (textParts.map jCoerceStr) else ""
    let otools := if jTruthy (jget setup "tools")
      then some (transformGeminiToolsToOAI ((jget setup "tools").getD .null)) else none
    let base := [("modalities", JVal.arr [.str "text", .str "audio"]),
      ("turn_detection", .obj [("type", .str "server_vad"),
        ("silence_duration_ms", .num 700)]),
      ("voice", .str "ash"),
      ("input_audio_transcription", .obj [("model", .str "whisper-1")]),
      ("input_audio_format", .str "pcm16"), ("output_audio_format", .str "pcm16"),
      ("instructions", .str instructions)]
    let session := JVal.obj (base ++ (match otools with
      | some ts => if ts.length > 0 then [("tools", JVal.arr ts)] else []
      | none => []))
    [.obj [("type", .str "session.update"), ("session", session)]]
  | some .toolResponse =>
    (match jget (p.get? "toolResponse") "functionResponses" with
     | some (.arr frs) =>
       (frs.map (fun fr =>
         JVal.obj [("type", .str "conversation.item.create"),
           ("item", .obj [("type", .str "function_call_output"),
             ("call_id", jGetD (some fr) "id"),
             ("output", .str (jser (jGetD (some fr) "response")))])]))
       ++ [.obj [("type", .str "response.create")]]
     | _ => [])
  | none => []

/-! ## C4: round-trip semantic identity over the mapping table (spec section 6) -/

/-- Style-A server event round trip: translate A to B, then each emitted
payload B to A. -/
def rtServerA (p : JVal) : List JVal :=
  ((serverOaiToGem none p).map serverGemToOai).flatten

/-- Style-B server event round trip. -/
def rtServerB (p : JVal) : List JVal :=
  ((serverGemToOai p).map (serverOaiToGem none)).flatten

/-- Style-A client event round trip. -/
def rtClientA (p : JVal) : List JVal :=
  ((clientOaiToGem p).map clientGemToOai).flatten

/-- Style-B client event round trip. -/
def rtClientB (p : JVal) : List JVal :=
  ((clientGemToOai p).map clientOaiToGem).flatten

/-- Round-trip success for one payload: the original is classified into some
bucket, and some payload of the round-tripped list is classified into the
same bucket by the same (style-X) extractor. -/
def roundTripOK {β : Type} (cls : JVal → Option β) (rt : JVal → List JVal)
    (p : JVal) : Prop :=
  ∃ b, cls p = some b ∧ b ∈ (rt p).filterMap cls

/-- The rows of the spec's section-6 mapping table: every event shape listed
there, in both styles, with its variable parts abstracted. -/
inductive TRow where
  | aUserTranscript (d : String)
  | aResponseTranscript (d : String)
  | aResponseAudio (d : String)
  | aToolCall (cid nm args : String)
  | aTurnDone (interrupted : Bool)
  | bUserTranscript (t : String)
  | bResponseTranscript (t : String)
  | bResponseAudio (d : String)
  | bToolCall (cid nm : String) (args : JVal)
  | bGenComplete
  | bInterrupted
  | aAppend (audio : String)
  | aSessionUpdate (s : JVal)
  | aItemCreate (cid out : String)
  | bRealtimeInput (d : String)
  | bSetup (fs : List (String × JVal))
  | bToolResponse (fr0 : JVal) (frs : List JVal)

/-- The concrete wire payload of a table row. -/
def TRow.payload : TRow → JVal
  | .aUserTranscript d =>
    .obj [("type", .str "conversation.item.input_audio_transcription.delta"),
      ("content_index", .num 0), ("delta", .str d)]
  | .aResponseTranscript d =>
    .obj [("type", .str "response.audio_transcript.delta"),
      ("output_index", .num 0), ("content_index", .num 0), ("delta", .str d)]
  | .aResponseAudio d =>
    .obj [("type", .str "response.audio.delta"),
      ("output_index", .num 0), ("content_index", .num 0), ("delta", .str d)]
  | .aToolCall cid nm args =>
    .obj [("type", .str "response.output_item.done"),
      ("item", .obj [("type", .str "function_call"), ("call_id", .str cid),
        ("name", .str nm), ("arguments", .str args)])]
  | .aTurnDone interrupted =>
    .obj [("type", .str "response.done"),
      ("response", .obj [("status",
        .str (if interrupted then "cancelled" else "completed"))])]
  | .bUserTranscript t =>
    .obj [("serverContent", .obj [("inputTranscription", .obj [("text", .str t)])])]
  | .bResponseTranscript t =>
    .obj [("serverContent", .obj [("outputTranscription", .obj [("text", .str t)])])]
  | .bResponseAudio d =>
    .obj [("serverContent", .obj [("modelTurn", .obj [("parts",
      .arr [.obj [("inlineData", .obj [("data", .str d)])]])])])]
  | .bToolCall cid nm args =>
    .obj [("toolCall", .obj [("functionCalls", .arr [.obj [
      ("id", .str cid), ("name", .str nm), ("args", args)]])])]
  | .bGenComplete =>
    .obj [("serverContent", .obj [("generationComplete", .bool true)])]
  | .bInterrupted =>
    .obj [("serverContent", .obj [("interrupted", .bool true)])]
  | .aAppend audio =>
    .obj [("type", .str "input_audio_buffer.append"), ("audio", .str audio)]
  | .aSessionUpdate s =>
    .obj [("type", .str "session.update"), ("session", s)]
  | .aItemCreate cid out =>
    .obj [("type", .str "conversation.item.create"),
      ("item", .obj [("type", .str "function_call_output"),
        ("call_id", .str cid), ("output", .str out)])]
  | .bRealtimeInput d =>
    .obj [("realtimeInput", .obj [("audio", .obj [("data", .str d),
      ("mimeType", .str "audio/pcm;rate=24000")])])]
  | .bSetup fs =>
    .obj [("setup", .obj fs)]
  | .bToolResponse fr0 frs =>
    .obj [("toolResponse", .obj [("functionResponses", .arr (fr0 :: frs))])]

/-- Well-formedness of a row's variable parts: delta and audio chunks are
nonempty strings (empty chunks are dropped by the translators), and tool-call
arguments survive `JSON.parse` of their `JSON.stringify` form. -/
def TRow.wf : TRow → Prop
  | .aUserTranscript d => d ≠ ""
  | .aResponseTranscript d => d ≠ ""
  | .aResponseAudio d => d ≠ ""
  | .aToolCall _ _ args => args = "" ∨ (jparse args).isSome = true
  | .aTurnDone _ => True
  | .bUserTranscript t => t ≠ ""
  | .bResponseTranscript t => t ≠ ""
  | .bResponseAudio d => d ≠ ""
  | .bToolCall _ _ args =>
    (jparse (jser (if jTruthyV args then args else JVal.obj []))).isSome = true
  | .bGenComplete => True
  | .bInterrupted => True
  | .aAppend audio => audio ≠ ""
  | .aSessionUpdate _ => True
  | .aItemCreate _ _ => True
  | .bRealtimeInput d => d ≠ ""
  | .bSetup _ => True
  | .bToolResponse _ _ => True

/-- Round-trip success for a row, with the extractor and direction matching
the row's style. -/
def TRow.ok : TRow → Prop
  | r@(.aUserTranscript _) | r@(.aResponseTranscript _) | r@(.aResponseAudio _)
  | r@(.aToolCall _ _ _) | r@(.aTurnDone _) =>
    roundTripOK oaiServerClassify rtServerA r.payload
  | r@(.bUserTranscript _) | r@(.bResponseTranscript _) | r@(.bResponseAudio _)
  | r@(.bToolCall _ _ _) | r@(.bGenComplete) | r@(.bInterrupted) =>
    roundTripOK gemServerClassify rtServerB r.payload
  | r@(.aAppend _) | r@(.aSessionUpdate _) | r@(.aItemCreate _ _) =>
    roundTripOK oaiClientClassify rtClientA r.payload
  | r@(.bRealtimeInput _) | r@(.bSetup _) | r@(.bToolResponse _ _) =>
    roundTripOK gemClientClassify rtClientB r.payload

lemma str_isEmpty_false {s : String} (h : s ≠ "") : s.isEmpty = false := by
  cases hc : s.isEmpty
  · rfl
  · exact absurd ((String.isEmpty_iff s).mp hc) h

lemma jTruthyV_obj (fs : List (String × JVal)) : jTruthyV (.obj fs) = true := rfl

lemma jTruthyV_str (s : String) : jTruthyV (.str s) = !s.isEmpty := rfl

lemma jTruthy_some (v : JVal) : jTruthy (some v) = jTruthyV v := rfl

lemma jTruthy_none : jTruthy none = false := rfl

/-- Claim C4: for every event shape listed in the section-6 mapping table
emitted in style X (well-formed per `TRow.wf`: nonempty delta/audio/text
chunks, tool-call arguments that survive `JSON.parse` of their serialised
form), translating X to Y and then each resulting payload Y to X yields a
payload list in which some payload is classified by the style-X extractor
into the same semantic callback bucket as the original; byte-equality is
not required and not claimed. -/
theorem c4_round_trip (r : TRow) (h : r.wf) : r.ok := by
  cases r with
  | aUserTranscript d =>
    have hne := str_isEmpty_false h
    refine ⟨.userTranscript, ?_, ?_⟩
    · simp [TRow.payload, oaiServerClassify, JVal.get?, jLook, isStrEq]
    · simp [TRow.payload, rtServerA, serverOaiToGem, serverGemToOai, oaiServerClassify,
        gemServerClassify, JVal.get?, jLook, jget, jTruthy, jTruthyV, jGetD, jsOr, isStrEq, hne]
  | aResponseTranscript d =>
    have hne := str_isEmpty_false h
    refine ⟨.responseTranscript, ?_, ?_⟩
    · simp [TRow.payload, oaiServerClassify, JVal.get?, jLook, isStrEq]
    · simp [TRow.payload, rtServerA, serverOaiToGem, serverGemToOai, oaiServerClassify,
        gemServerClassify, JVal.get?, jLook, jget, jTruthy, jTruthyV, jGetD, jsOr, isStrEq, hne]
  | aResponseAudio d =>
    have hne := str_isEmpty_false h
    refine ⟨.responseAudio, ?_, ?_⟩
    · simp [TRow.payload, oaiServerClassify, JVal.get?, jLook, isStrEq]
    · simp [TRow.payload, rtServerA, serverOaiToGem, serverGemToOai, oaiServerClassify,
        gemServerClassify, JVal.get?, jLook, jget, jTruthy, jTruthyV, jGetD, jsOr, isStrEq, hne]
  | aToolCall cid nm args =>
    refine ⟨.toolCall, ?_, ?_⟩
    · simp [TRow.payload, oaiServerClassify, JVal.get?, jLook, jget, isStrEq]
    · rcases h with h | h
      · subst h
        have h0 : ("" : String).isEmpty = true := rfl
        simp [TRow.payload, rtServerA, serverOaiToGem, serverGemToOai, oaiServerClassify,
          gemServerClassify, JVal.get?, jLook, jget, jTruthy, jTruthyV, jGetD, jsOr,
          isStrEq, jparseV, h0]
      · have hne : args ≠ "" := by
          rintro rfl
          exact absurd h (by decide)
        obtain ⟨va, hva⟩ := Option.isSome_iff_exists.mp h
        have hne2 := str_isEmpty_false hne
        simp [TRow.payload, rtServerA, serverOaiToGem, serverGemToOai, oaiServerClassify,
          gemServerClassify, JVal.get?, jLook, jget, jTruthy, jTruthyV, jGetD, jsOr,
          isStrEq, jparseV, hne2, hva]
  | aTurnDone interrupted =>
    refine ⟨.turnBoundary, ?_, ?_⟩
    · cases interrupted <;>
        simp [TRow.payload, oaiServerClassify, JVal.get?, jLook, jget, isStrEq]
    · cases interrupted <;>
        simp [TRow.payload, rtServerA, serverOaiToGem, serverGemToOai, oaiServerClassify,
          gemServerClassify, JVal.get?, jLook, jget, jTruthy, jTruthyV, jGetD, jsOr, isStrEq]
  | bUserTranscript t =>
    have hne := str_isEmpty_false h
    refine ⟨.userTranscript, ?_, ?_⟩
    · simp [TRow.payload, gemServerClassify, JVal.get?, jLook, jget, jTruthy, jTruthyV]
    · simp [TRow.payload, rtServerB, serverOaiToGem, serverGemToOai, oaiServerClassify,
        gemServerClassify, JVal.get?, jLook, jget, jTruthy, jTruthyV, jGetD, jsOr, isStrEq, hne]
  | bResponseTranscript t =>
    have hne := str_isEmpty_false h
    refine ⟨.responseTranscript, ?_, ?_⟩
    · simp [TRow.payload, gemServerClassify, JVal.get?, jLook, jget, jTruthy, jTruthyV]
    · simp [TRow.payload, rtServerB, serverOaiToGem, serverGemToOai, oaiServerClassify,
        gemServerClassify, JVal.get?, jLook, jget, jTruthy, jTruthyV, jGetD, jsOr, isStrEq, hne]
  | bResponseAudio d =>
    have hne := str_isEmpty_false h
    refine ⟨.responseAudio, ?_, ?_⟩
    · simp [TRow.payload, gemServerClassify, JVal.get?, jLook, jget, jTruthy, jTruthyV]
    · simp [TRow.payload, rtServerB, serverOaiToGem, serverGemToOai, oaiServerClassify,
        gemServerClassify, JVal.get?, jLook, jget, jTruthy, jTruthyV, jGetD, jsOr, isStrEq, hne]
  | bToolCall cid nm args =>
    have h' : (jparse (jser (if jTruthyV args then args else JVal.obj []))).isSome = true := h
    refine ⟨.toolCall, ?_, ?_⟩
    · simp [TRow.payload, gemServerClassify, JVal.get?, jLook, jget, jTruthy, jTruthyV]
    · cases hta : jTruthyV args with
      | true =>
        simp [hta] at h'
        have hje : (jser args).isEmpty = false := by
          cases hc : (jser args).isEmpty
          · rfl
          · rw [(String.isEmpty_iff _).mp hc] at h'
            exact absurd h' (by decide)
        obtain ⟨va, hva⟩ := Option.isSome_iff_exists.mp h'
        simp [TRow.payload, rtServerB, serverOaiToGem, serverGemToOai, oaiServerClassify,
          gemServerClassify, JVal.get?, jLook, jget, jGetD, jsOr, isStrEq, jparseV,
          jTruthy_some, jTruthy_none, jTruthyV_str, jTruthyV_obj, hta, hje, hva]
      | false =>
        have hje : (jser (JVal.obj [])).isEmpty = false := rfl
        have hpp : jparse (jser (JVal.obj [])) = some (JVal.obj []) := rfl
        simp [TRow.payload, rtServerB, serverOaiToGem, serverGemToOai, oaiServerClassify,
          gemServerClassify, JVal.get?, jLook, jget, jGetD, jsOr, isStrEq, jparseV,
          jTruthy_some, jTruthy_none, jTruthyV_str, jTruthyV_obj, hta, hje, hpp]
  | bGenComplete =>
    refine ⟨.turnBoundary, ?_, ?_⟩
    · simp [TRow.payload, gemServerClassify, JVal.get?, jLook, jget, jTruthy, jTruthyV]
    · simp [TRow.payload, rtServerB, serverOaiToGem, serverGemToOai, oaiServerClassify,
        gemServerClassify, JVal.get?, jLook, jget, jTruthy, jTruthyV, jGetD, jsOr, isStrEq]
  | bInterrupted =>
    refine ⟨.turnBoundary, ?_, ?_⟩
    · simp [TRow.payload, gemServerClassify, JVal.get?, jLook, jget, jTruthy, jTruthyV]
    · simp [TRow.payload, rtServerB, serverOaiToGem, serverGemToOai, oaiServerClassify,
        gemServerClassify, JVal.get?, jLook, jget, jTruthy, jTruthyV, jGetD, jsOr, isStrEq]
  | aAppend audio =>
    have hne := str_isEmpty_false h
    refine ⟨.userAudio, ?_, ?_⟩
    · simp [TRow.payload, oaiClientClassify, JVal.get?, jLook, jget, isStrEq]
    · simp [TRow.payload, rtClientA, clientOaiToGem, clientGemToOai, oaiClientClassify,
        gemClientClassify, JVal.get?, jLook, jget, jTruthy, jTruthyV, jGetD, jsOr, isStrEq, hne]
  | aSessionUpdate s =>
    refine ⟨.sessionUpdate, ?_, ?_⟩
    · simp [TRow.payload, oaiClientClassify, JVal.get?, jLook, jget, isStrEq]
    · simp [TRow.payload, rtClientA, clientOaiToGem, clientGemToOai, oaiClientClassify,
        gemClientClassify, JVal.get?, jLook, jget, jTruthy, jTruthyV, jGetD, jsOr, isStrEq]
  | aItemCreate cid out =>
    refine ⟨.toolResponse, ?_, ?_⟩
    · simp [TRow.payload, oaiClientClassify, JVal.get?, jLook, jget, isStrEq]
    · simp [TRow.payload, rtClientA, clientOaiToGem, clientGemToOai, oaiClientClassify,
        gemClientClassify, JVal.get?, jLook, jget, jTruthy, jTruthyV, jGetD, jsOr, isStrEq]
  | bRealtimeInput d =>
    have hne := str_isEmpty_false h
    refine ⟨.userAudio, ?_, ?_⟩
    · simp [TRow.payload, gemClientClassify, JVal.get?, jLook, jget, jTruthy, jTruthyV]
    · simp [TRow.payload, rtClientB, clientOaiToGem, clientGemToOai, oaiClientClassify,
        gemClientClassify, JVal.get?, jLook, jget, jTruthy, jTruthyV, jGetD, jsOr, isStrEq, hne]
  | bSetup fs =>
    refine ⟨.sessionUpdate, ?_, ?_⟩
    · simp [TRow.payload, gemClientClassify, JVal.get?, jLook, jget, jTruthy, jTruthyV]
    · simp [TRow.payload, rtClientB, clientOaiToGem, clientGemToOai, oaiClientClassify,
        gemClientClassify, JVal.get?, jLook, jget, jTruthy, jTruthyV, jGetD, jsOr, isStrEq]
  | bToolResponse fr0 frs =>
    refine ⟨.toolResponse, ?_, ?_⟩
    · simp [TRow.payload, gemClientClassify, JVal.get?, jLook, jget, jTruthy, jTruthyV]
    · simp [TRow.payload, rtClientB, clientOaiToGem, clientGemToOai, oaiClientClassify,
        gemClientClassify, JVal.get?, jLook, jget, jTruthy, jTruthyV, jGetD, jsOr, isStrEq]

theorem c4_round_trip_witness :
    TRow.wf (.bToolCall "c1" "f" (.obj [("x", .str "1")])) ∧
    TRow.ok (.bToolCall "c1" "f" (.obj [("x", .str "1")])) :=
  ⟨rfl, c4_round_trip (.bToolCall "c1" "f" (.obj [("x", .str "1")])) rfl⟩

end RS
